import Mathlib

/-!
# video_downloader: admission control and streaming orchestration

A shallow embedding of the Go backend (`backend/services/semaphore.go`,
`backend/middleware/ratelimit.go`, `backend/handlers/download.go`,
`backend/services/validator.go`, `backend/services/ytdlp.go`) together with
theorems about it.

Conventions.
* A Go `string` is a Lean `String` (a sequence of code points); every byte
  the code tests for (`+`, `,`, `:`, `%`, the filename characters) is ASCII.
* Time is an integer number of nanoseconds, as in `time.Duration`.
* Calls that leave the process (the yt-dlp subprocess, the upstream HTTP
  fetch, the file system, the client connection) are answered by an `Env` of
  oracles; every theorem quantifies over all of them.
-/

namespace VidDown

/-! ## services/semaphore.go -/

/-- The buffered channel `ch chan struct{}` of `Semaphore`, seen through
`cap(s.ch)` and `len(s.ch)`. -/
structure Semaphore where
  cap : Nat
  len : Nat
deriving DecidableEq, Repr

/-- `NewSemaphore(max)`: `make(chan struct{}, max)`; a negative size panics. -/
def NewSemaphore (max : Int) : Option Semaphore :=
  if max < 0 then none else some { cap := max.toNat, len := 0 }

/-- `TryAcquire`: the `select` sends when the buffer has room and otherwise
takes the `default` branch. -/
def Semaphore.TryAcquire (s : Semaphore) : Bool × Semaphore :=
  if s.len < s.cap then (true, { s with len := s.len + 1 }) else (false, s)

/-- `Release`: `<-s.ch` takes one element; on an empty buffer the receive
blocks, which is `none`. -/
def Semaphore.Release (s : Semaphore) : Option Semaphore :=
  if 0 < s.len then some { s with len := s.len - 1 } else none

/-- `Available`: `cap(s.ch) - len(s.ch)`. -/
def Semaphore.Available (s : Semaphore) : Int :=
  (s.cap : Int) - (s.len : Int)

/-- The two operations a caller can issue against the gate. -/
inductive SemOp where
  | tryAcquire
  | release
deriving DecidableEq, Repr

/-- One operation on the gate; a `Release` that would block leaves the
channel as it is. -/
def Semaphore.applyOp (s : Semaphore) : SemOp → Semaphore
  | .tryAcquire => s.TryAcquire.2
  | .release => (s.Release).getD s

/-- The state reached after a sequence of operations. -/
def Semaphore.run (s : Semaphore) (ops : List SemOp) : Semaphore :=
  ops.foldl Semaphore.applyOp s

/-- The answers of `n` consecutive `TryAcquire` calls, and the final state. -/
def Semaphore.tryAcquireN : Nat → Semaphore → List Bool × Semaphore
  | 0, s => ([], s)
  | n + 1, s =>
    let r := s.TryAcquire
    let rest := Semaphore.tryAcquireN n r.2
    (r.1 :: rest.1, rest.2)

/-! ## Go standard-library helpers on strings -/

namespace strings

/-- Search for the first index at which `sub` starts, counting from `i`. -/
def indexAux (sub : List Char) : List Char → Nat → Int
  | [], i => if sub.isPrefixOf [] then (i : Int) else -1
  | c :: cs, i => if sub.isPrefixOf (c :: cs) then (i : Int) else indexAux sub cs (i + 1)

/-- `strings.Index(s, substr)`: the index of the first instance of `substr`
in `s`, or `-1`. -/
def Index (s substr : String) : Int := indexAux substr.data s.data 0

/-- Search for the last index at which `sub` starts, counting from `i`. -/
def lastIndexAux (sub : List Char) : List Char → Nat → Int
  | [], i => if sub.isPrefixOf [] then (i : Int) else -1
  | c :: cs, i =>
    let r := lastIndexAux sub cs (i + 1)
    if r ≠ -1 then r else if sub.isPrefixOf (c :: cs) then (i : Int) else -1

/-- `strings.LastIndex(s, substr)`: the index of the last instance of
`substr` in `s`, or `-1`. -/
def LastIndex (s substr : String) : Int := lastIndexAux substr.data s.data 0

/-- Count non-overlapping instances of a non-empty `sub`; `skip` is the
number of characters still covered by the instance just counted. -/
def countAux (sub : List Char) : List Char → Nat → Nat
  | [], _ => 0
  | _ :: cs, skip + 1 => countAux sub cs skip
  | c :: cs, 0 =>
    if sub.isPrefixOf (c :: cs) then 1 + countAux sub cs (sub.length - 1)
    else countAux sub cs 0

/-- `strings.Count(s, substr)`: the number of non-overlapping instances of
`substr` in `s`; for the empty `substr`, one more than the number of code
points. -/
def Count (s substr : String) : Nat :=
  if substr.data = [] then s.data.length + 1 else countAux substr.data s.data 0

/-- `strings.Contains(s, substr)`, which is `Index(s, substr) >= 0`. -/
def Contains (s substr : String) : Bool := decide (0 ≤ Index s substr)

/-- `unicode.IsSpace`: the code points with the White_Space property. -/
def isSpace (c : Char) : Bool :=
  let n := c.toNat
  (9 ≤ n && n ≤ 13) || n = 32 || n = 0x85 || n = 0xA0 || n = 0x1680 ||
  (0x2000 ≤ n && n ≤ 0x200A) || n = 0x2028 || n = 0x2029 || n = 0x202F ||
  n = 0x205F || n = 0x3000

/-- `strings.TrimSpace(s)`: `s` without leading and trailing white space. -/
def TrimSpace (s : String) : String :=
  String.mk ((s.data.dropWhile isSpace).rdropWhile isSpace)

/-- `strings.HasPrefix(s, prefix)`. -/
def HasPrefix (s pre : String) : Bool := pre.data.isPrefixOf s.data

/-- `strings.TrimSuffix(s, suffix)`. -/
def TrimSuffix (s suffix : String) : String :=
  if suffix.data.isSuffixOf s.data then
    String.mk (s.data.take (s.data.length - suffix.data.length))
  else s

end strings

/-- The slice expression `s[:idx]`. -/
def sliceTo (s : String) (idx : Int) : String := String.mk (s.data.take idx.toNat)

/-! ## handlers/download.go: `sanitizeFilename` -/

/-- The double quote, code point 34. -/
def dquote : Char := Char.ofNat 34

/-- The apostrophe, code point 39. -/
def apostrophe : Char := Char.ofNat 39

/-- The backslash, code point 92. -/
def backslash : Char := Char.ofNat 92

/-- The argument list of `strings.NewReplacer` in `sanitizeFilename`, as
(old, new) pairs; every old and new string is one byte long. -/
def sanitizePairs : List (Char × Char) :=
  [(dquote, apostrophe), (backslash, '_'), ('/', '_'), (':', '-'), ('*', '_'),
   ('?', '_'), ('<', '_'), ('>', '_'), ('|', '_')]

/-- The byte replacer that `strings.NewReplacer` builds when every old and
new string is a single byte: the first pair whose old byte matches decides. -/
def byteReplace : List (Char × Char) → Char → Char
  | [], c => c
  | (o, n) :: rest, c => if c = o then n else byteReplace rest c

/-- `Replacer.Replace` of a byte replacer. -/
def replacerReplace (pairs : List (Char × Char)) (s : String) : String :=
  String.mk (s.data.map (byteReplace pairs))

/-- `sanitizeFilename`. -/
def sanitizeFilename (filename : String) : String :=
  replacerReplace sanitizePairs filename

/-- The characters the filename policy forbids: quote, backslash, slash,
colon, asterisk, question mark, angle brackets, pipe. -/
def forbiddenChars : List Char :=
  [dquote, backslash, '/', ':', '*', '?', '<', '>', '|']

/-! ## middleware/ratelimit.go: client identity -/

/-- The identity `ip` that `RateLimiter.Middleware` computes from
`r.RemoteAddr` and `r.Header.Get("X-Forwarded-For")` (lines 62 to 78). -/
def clientIP (remoteAddr forwarded : String) : String :=
  let ip :=
    if forwarded ≠ "" then
      let idx := strings.Index forwarded ","
      if idx ≠ -1 then strings.TrimSpace (sliceTo forwarded idx)
      else strings.TrimSpace forwarded
    else remoteAddr
  let idx := strings.LastIndex ip ":"
  if idx ≠ -1 then
    if strings.Count ip ":" = 1 then sliceTo ip idx else ip
  else ip

/-- A text without its leading white space: white-space characters are
dropped until the first character that is not one. -/
def specTrimLeft : List Char → List Char
  | [] => []
  | c :: cs => if strings.isSpace c = true then specTrimLeft cs else c :: cs

/-- A text without its trailing white space: a character is kept when
something is kept after it, or when it is not white space itself. -/
def specTrimRight : List Char → List Char
  | [] => []
  | c :: cs =>
    match specTrimRight cs with
    | [] => if strings.isSpace c = true then [] else [c]
    | d :: ds => c :: d :: ds

/-- The address the specification names: the left-most hop of a non-empty
forwarded-for chain (its text before the first comma) with the surrounding
white space removed; otherwise the peer address. -/
def specAddress (remoteAddr forwarded : String) : String :=
  if forwarded = "" then remoteAddr
  else String.mk (specTrimRight (specTrimLeft (forwarded.data.takeWhile (fun c => c ≠ ','))))

/-- The identity as the specification words it: the text from the last colon
onward is removed exactly when the address has exactly one colon. -/
def specIdentity (remoteAddr forwarded : String) : String :=
  let addr := specAddress remoteAddr forwarded
  if addr.data.count ':' = 1 then
    String.mk ((addr.data.rdropWhile (fun c => c ≠ ':')).dropLast)
  else addr

/-! ## Go maps and net/http values -/

/-- `m[key]` with the comma-ok form, for a Go map kept as its list of
entries (one entry per key). -/
def mapGet {β : Type} : List (String × β) → String → Option β
  | [], _ => none
  | (k, v) :: rest, key => if k = key then some v else mapGet rest key

/-- `m[key] = value`. -/
def mapSet {β : Type} : List (String × β) → String → β → List (String × β)
  | [], key, value => [(key, value)]
  | (k, v) :: rest, key, value =>
    if k = key then (key, value) :: rest else (k, v) :: mapSet rest key value

/-- `delete(m, key)`. -/
def mapDelete {β : Type} (m : List (String × β)) (key : String) : List (String × β) :=
  m.filter (fun e => decide (e.1 ≠ key))

/-- `http.Header`, with canonical keys and one value per key. -/
abbrev Header := List (String × String)

/-- `Header.Get(key)`: the value, or the empty string. -/
def Header.Get (h : Header) (key : String) : String := (mapGet h key).getD ""

/-- `Header.Set(key, value)`. -/
def Header.Set (h : Header) (key value : String) : Header := mapSet h key value

/-- The parts of `*http.Request` the handlers read; `query` is
`r.URL.Query()`. -/
structure Request where
  Method : String
  query : List (String × String)
  Header : Header
  RemoteAddr : String
deriving DecidableEq, Repr

/-- `r.URL.Query().Get(key)`. -/
def Request.queryGet (r : Request) (key : String) : String := (mapGet r.query key).getD ""

/-- An `http.ResponseWriter`: the header map, the status line and header
snapshot sent by the first `WriteHeader`, and the body chunks written. -/
structure ResponseWriter where
  header : Header
  sent : Option (Nat × Header)
  body : List String
deriving DecidableEq, Repr

/-- A fresh response. -/
def ResponseWriter.new : ResponseWriter := { header := [], sent := none, body := [] }

/-- `w.Header().Set(key, value)`. -/
def ResponseWriter.setHeader (w : ResponseWriter) (key value : String) : ResponseWriter :=
  { w with header := w.header.Set key value }

/-- `w.WriteHeader(code)`: the first call sends the status line and the
current header; later calls are ignored. -/
def ResponseWriter.WriteHeader (w : ResponseWriter) (code : Nat) : ResponseWriter :=
  match w.sent with
  | some _ => w
  | none => { w with sent := some (code, w.header) }

/-- `w.Write(data)`: sends `200` first when no status was sent yet. -/
def ResponseWriter.Write (w : ResponseWriter) (data : String) : ResponseWriter :=
  let w1 := w.WriteHeader 200
  { w1 with body := w1.body ++ [data] }

/-- The status the client receives: the one sent, or `200` when the handler
returned without writing. -/
def ResponseWriter.status (w : ResponseWriter) : Nat :=
  match w.sent with
  | some (code, _) => code
  | none => 200

/-- The header the client receives. -/
def ResponseWriter.sentHeader (w : ResponseWriter) : Header :=
  match w.sent with
  | some (_, h) => h
  | none => w.header

/-- `http.Error(w, error, code)`. -/
def httpError (w : ResponseWriter) (error : String) (code : Nat) : ResponseWriter :=
  let w1 := w.setHeader "Content-Type" "text/plain; charset=utf-8"
  let w2 := w1.setHeader "X-Content-Type-Options" "nosniff"
  (w2.WriteHeader code).Write (error ++ "\n")

/-! ## middleware/ratelimit.go -/

/-- `time.Minute`, in nanoseconds. -/
def minute : Int := 60000000000

/-- Modelled from the spec: `rate.Limit` of golang.org/x/time/rate, which
is not part of the sources. `every interval` is one token per `interval`
nanoseconds; `inf` allows every event. -/
inductive Limit where
  | inf
  | every (interval : Int)
deriving DecidableEq, Repr

/-- Modelled from the spec: `rate.Every(interval)` of golang.org/x/time/rate;
a non-positive interval is `rate.Inf`. -/
def rateEvery (interval : Int) : Limit :=
  if interval ≤ 0 then Limit.inf else Limit.every interval

/-- Modelled from the spec: the token bucket `rate.Limiter` of
golang.org/x/time/rate, which is not part of the sources: refill rate
`limit`, capacity `burst`. The library keeps the token count in a `float64`;
here it is kept as nanoseconds of credit (`credit = tokens * interval`),
a whole number as long as rounding is left aside, and rounding enters only
through the `tie` of `Limiter.Allow`. `last` is the time of the last admitted
event, `none` for a bucket not used yet. -/
structure Limiter where
  limit : Limit
  burst : Int
  credit : Int
  last : Option Int
deriving DecidableEq, Repr

/-- Modelled from the spec: `rate.NewLimiter(r, b)`, a bucket that starts
full. -/
def NewLimiter (r : Limit) (b : Int) : Limiter :=
  { limit := r, burst := b, last := none,
    credit := match r with
      | Limit.inf => 0
      | Limit.every interval => b * interval }

/-- Modelled from the spec: the credit at time `t` (`Limiter.advance`): the
stored credit plus the time elapsed since `last`, capped at the capacity. -/
def Limiter.advance (lim : Limiter) (interval t : Int) : Int :=
  match lim.last with
  | none => lim.burst * interval
  | some last =>
    let last := if t < last then t else last
    let credit := lim.credit + (t - last)
    if lim.burst * interval < credit then lim.burst * interval else credit

/-- Modelled from the spec: `Limiter.Allow()` at time `t`. One token is
taken; the event is admitted when the wait for the missing credit, which the
library truncates to whole nanoseconds, is zero. A missing credit of two
nanoseconds or more is refused and leaves the bucket as it was. A missing
credit of exactly one nanosecond is the one case in which the rounding of
the `float64` arithmetic decides (the computed wait falls just below or just
above one nanosecond): `tie` says whether the event is admitted then. -/
def Limiter.Allow (lim : Limiter) (t : Int) (tie : Bool) : Bool × Limiter :=
  match lim.limit with
  | Limit.inf => (true, lim)
  | Limit.every interval =>
    let credit := lim.advance interval t - interval
    if 1 ≤ lim.burst ∧ (0 ≤ credit ∨ (credit = -1 ∧ tie = true)) then
      (true, { lim with last := some t, credit := credit })
    else (false, lim)

/-- The `visitor` record. -/
structure visitor where
  limiter : Limiter
  lastSeen : Int
deriving DecidableEq, Repr

/-- The `RateLimiter`: the visitor table and the configured rate. -/
structure RateLimiter where
  visitors : List (String × visitor)
  rpm : Int
deriving DecidableEq, Repr

/-- `NewRateLimiter(rpm)`; the sweep it starts is `cleanupVisitorsPass`. -/
def NewRateLimiter (rpm : Int) : RateLimiter := { visitors := [], rpm := rpm }

/-- `getVisitor(ip)` with the clock reading `now`: the limiter of `ip`,
created on first sight, and the table with `lastSeen` refreshed. The
division `time.Minute / time.Duration(rl.rpm)` panics for `rpm = 0`, which
is `none`. -/
def RateLimiter.getVisitor (rl : RateLimiter) (ip : String) (now : Int) :
    Option (Limiter × RateLimiter) :=
  match mapGet rl.visitors ip with
  | none =>
    if rl.rpm = 0 then none
    else
      let limiter := NewLimiter (rateEvery (Int.tdiv minute rl.rpm)) rl.rpm
      some (limiter,
        { rl with visitors := mapSet rl.visitors ip { limiter := limiter, lastSeen := now } })
  | some v =>
    some (v.limiter, { rl with visitors := mapSet rl.visitors ip { v with lastSeen := now } })

/-- Lines 80 and 81 of `Middleware`: `limiter := rl.getVisitor(ip)` at clock
reading `seenAt`, then `limiter.Allow()` at clock reading `allowAt` with the
rounding outcome `tie`. The limiter is shared with the table, so its new
state is stored there. -/
def RateLimiter.allow (rl : RateLimiter) (ip : String) (seenAt allowAt : Int) (tie : Bool) :
    Option (Bool × RateLimiter) :=
  match rl.getVisitor ip seenAt with
  | none => none
  | some (limiter, rl1) =>
    let r := limiter.Allow allowAt tie
    let table := mapSet rl1.visitors ip { limiter := r.2, lastSeen := seenAt }
    some (r.1, { rl1 with visitors := table })

/-- The answers to a sequence of requests of one identity, each given by its
two clock readings and its rounding outcome `(seenAt, allowAt, tie)`. -/
def RateLimiter.allowSeq (rl : RateLimiter) (ip : String) :
    List (Int × Int × Bool) → Option (List Bool × RateLimiter)
  | [] => some ([], rl)
  | (seenAt, allowAt, tie) :: rest =>
    match rl.allow ip seenAt allowAt tie with
    | none => none
    | some (ok, rl1) =>
      match RateLimiter.allowSeq rl1 ip rest with
      | none => none
      | some (oks, rl2) => some (ok :: oks, rl2)

/-- The handler `Middleware(next)` returns. `next` is the wrapped handler,
acting on the response and on a state `st` of its own; `seenAt`, `allowAt`
and `tie` are the clock readings and the rounding outcome of the limiter
call. -/
def RateLimiter.Middleware {σ : Type} (rl : RateLimiter)
    (next : ResponseWriter → Request → σ → ResponseWriter × σ)
    (seenAt allowAt : Int) (tie : Bool) (w : ResponseWriter) (r : Request) (st : σ) :
    Option (ResponseWriter × σ × RateLimiter) :=
  let ip := clientIP r.RemoteAddr (r.Header.Get "X-Forwarded-For")
  match rl.allow ip seenAt allowAt tie with
  | none => none
  | some (false, rl1) =>
    let w1 := w.setHeader "Content-Type" "application/json"
    let w2 := w1.setHeader "Retry-After" "60"
    some (httpError w2 "\x7b\"error\": \"Слишком много запросов. Подождите минуту.\"\x7d" 429,
      st, rl1)
  | some (true, rl1) =>
    let out := next w r st
    some (out.1, out.2, rl1)

/-- One pass of the loop body of `cleanupVisitors` at time `now`: every
entry whose `lastSeen` lies more than three minutes back is deleted. -/
def RateLimiter.cleanupVisitorsPass (rl : RateLimiter) (now : Int) : RateLimiter :=
  let table := rl.visitors.foldl
    (fun m e => if now - e.2.lastSeen > 3 * minute then mapDelete m e.1 else m)
    rl.visitors
  { rl with visitors := table }

/-! ## More standard-library helpers -/

/-- Split a list of characters at every `sep`. -/
def splitAux (sep : Char) : List Char → List (List Char)
  | [] => [[]]
  | c :: cs =>
    if c = sep then [] :: splitAux sep cs
    else
      match splitAux sep cs with
      | [] => [[c]]
      | h :: t => (c :: h) :: t

/-- `strings.Split(s, "\n")`. -/
def splitLines (s : String) : List String := (splitAux '\n' s.data).map String.mk

/-- `filepath.Ext(path)`: the suffix of the last path element from its last
dot, or the empty string. -/
def filepathExt (path : String) : String :=
  let lastElem := path.data.reverse.takeWhile (fun c => c ≠ '/')
  if '.' ∈ lastElem then
    String.mk ('.' :: (lastElem.takeWhile (fun c => c ≠ '.')).reverse)
  else ""

/-- `filepath.Base(path)`: the last element of `path`, trailing slashes
removed. -/
def filepathBase (path : String) : String :=
  if path = "" then "."
  else
    let stripped := path.data.rdropWhile (fun c => c = '/')
    let last := (stripped.reverse.takeWhile (fun c => c ≠ '/')).reverse
    if last = [] then "/" else String.mk last

/-- `io.Copy(w, src)` to the client: the chunks of `src` are written one by
one. `srcFails` says whether reading `src` ends in an error instead of EOF;
`accepts` is the number of writes the client connection still takes
(`none`: it never breaks). Returns the response and whether `io.Copy`
returned an error. -/
def ioCopy : ResponseWriter → List String → Bool → Option Nat → ResponseWriter × Bool
  | w, [], srcFails, _ => (w, srcFails)
  | w, _ :: _, _, some 0 => (w.WriteHeader 200, true)
  | w, c :: cs, srcFails, some (n + 1) => ioCopy (w.Write c) cs srcFails (some n)
  | w, c :: cs, srcFails, none => ioCopy (w.Write c) cs srcFails none

/-! ## services/validator.go -/

/-- `Platform`. -/
inductive Platform where
  | youtube
  | instagram
  | tiktok
  | unknown
deriving DecidableEq, Repr

/-- The errors of the service layer: the three sentinel errors of
validator.go, and any other error with its text. -/
inductive ServiceError where
  | ErrInvalidURL
  | ErrUnsupportedURL
  | ErrDurationTooLong
  | other (msg : String)
deriving DecidableEq, Repr

/-- Case folding as the `(?i)` flag applies it to the letters of the
patterns: upper-case ASCII, and the two non-ASCII code points that fold to
`k` and `s`. -/
def foldCase (c : Char) : Char :=
  let n := c.toNat
  if 65 ≤ n ∧ n ≤ 90 then Char.ofNat (n + 32)
  else if n = 0x212A then 'k'
  else if n = 0x17F then 's'
  else c

/-- `pattern.MatchString(host)` for a pattern `(?i)(a|b|c)` of literal
alternatives: some alternative occurs in `host`, letter case ignored. -/
def matchAlternatives (alternatives : List String) (host : String) : Bool :=
  alternatives.any
    (fun alt => decide (0 ≤ strings.indexAux alt.data (host.data.map foldCase) 0))

/-- `platformPatterns`. -/
def platformPatterns : List (Platform × List String) :=
  [(Platform.youtube, ["youtube.com", "youtu.be", "music.youtube.com"]),
   (Platform.instagram, ["instagram.com", "instagr.am"]),
   (Platform.tiktok, ["tiktok.com", "vm.tiktok.com"])]

/-- `Validator.ValidateURL(rawURL)`. `urlParse` stands for `url.Parse`: `none`
for a parse error, otherwise the `Host` of the parsed URL. The map of
patterns is walked in one fixed order; the callers below discard the
platform. -/
def ValidateURL (urlParse : String → Option String) (rawURL : String) :
    Except ServiceError Platform :=
  let rawURL := strings.TrimSpace rawURL
  match urlParse rawURL with
  | none => Except.error ServiceError.ErrInvalidURL
  | some host =>
    if host = "" then Except.error ServiceError.ErrInvalidURL
    else
      match platformPatterns.find? (fun p => matchAlternatives p.2 host) with
      | some p => Except.ok p.1
      | none => Except.error ServiceError.ErrUnsupportedURL

/-! ## The world outside the process -/

/-- `StreamInfo`. -/
structure StreamInfo where
  URL : String
  Filename : String
  ContentType : String
  Size : Int
deriving DecidableEq, Repr

/-- The upstream `*http.Response` as the handler reads it. -/
structure Upstream where
  StatusCode : Nat
  Header : Header
  ContentLength : Int
  body : List String
  bodyFails : Bool
deriving DecidableEq, Repr

/-- The answers of everything outside the process during one request. -/
structure Env where
  /-- `url.QueryUnescape`; `none` is an error. -/
  queryUnescape : String → Option String
  /-- `url.Parse`; `none` is an error, otherwise the host. -/
  urlParse : String → Option String
  /-- `url.PathEscape`. -/
  pathEscape : String → String
  /-- The yt-dlp run of `GetDirectURL` for a locator and a format selector:
  its standard output, or the error text. -/
  ytdlpGetURL : String → String → Except String String
  /-- Whether `http.NewRequestWithContext` accepts the URL. -/
  newRequest : String → Bool
  /-- The upstream fetch `client.Do(req)` for a URL and request header. -/
  clientDo : String → Header → Except String Upstream
  /-- Whether `os.MkdirAll` of the temp directory succeeds. -/
  mkdirAll : Bool
  /-- Whether the yt-dlp run of `DownloadMergedToFile` succeeds. -/
  ytdlpMerge : String → String → Bool
  /-- The matches of `/tmp/viddown/dl_*.mp4` after the run, each with its
  `ModTime().Unix()` when `os.Stat` succeeds. -/
  glob : List (String × Option Int)
  /-- Whether `os.Open` of a path succeeds. -/
  osOpen : String → Bool
  /-- `file.Stat()`: the size, or `none` for an error. -/
  fileStat : String → Option Int
  /-- The contents of a file, in chunks. -/
  fileBody : String → List String
  /-- The number of writes the client connection takes before it breaks. -/
  clientAccepts : Option Nat

/-- What a request does to the world, in order. -/
inductive Event where
  | TryAcquire (ok : Bool)
  | Release
  | GetDirectURL (url formatID : String)
  | DownloadMergedToFile (url formatID : String)
  | ytdlp (url formatID : String)
  | fetch (url : String) (header : Header)
  | closeBody
  | openFile (path : String)
  | closeFile (path : String)
  | cleanup (path : String)
deriving DecidableEq, Repr

/-! ## services/ytdlp.go -/

/-- The `switch ext` of `GetDirectURL`. -/
def contentTypeOfExt (ext : String) : String :=
  if ext = ".mp4" then "video/mp4"
  else if ext = ".webm" then "video/webm"
  else if ext = ".m4a" then "audio/mp4"
  else if ext = ".mp3" then "audio/mpeg"
  else if ext = ".opus" then "audio/opus"
  else "application/octet-stream"

/-- `YtDlpService.GetDirectURL(ctx, url, formatID)`: the result and the
subprocess runs it made. -/
def GetDirectURL (env : Env) (url formatID : String) :
    Except ServiceError StreamInfo × List Event :=
  match ValidateURL env.urlParse url with
  | Except.error err => (Except.error err, [])
  | Except.ok _ =>
    match env.ytdlpGetURL url formatID with
    | Except.error msg =>
      (Except.error (ServiceError.other ("failed to get URL: " ++ msg)),
        [Event.ytdlp url formatID])
    | Except.ok output =>
      let lines := splitLines (strings.TrimSpace output)
      if lines.length < 2 then
        (Except.error (ServiceError.other "invalid yt-dlp output"), [Event.ytdlp url formatID])
      else
        let filename := lines.getLastD ""
        let directURL := lines.headD ""
        let contentType := contentTypeOfExt (filepathExt filename)
        (Except.ok { URL := directURL, Filename := filename, ContentType := contentType,
                     Size := 0 },
          [Event.ytdlp url formatID])

/-- The loop of `DownloadMergedToFile` that keeps the most recently modified
match. -/
def newestMatch : List (String × Option Int) → String → Int → String
  | [], downloadedPath, _ => downloadedPath
  | (m, some mt) :: rest, downloadedPath, modTime =>
    if mt > modTime then newestMatch rest m mt else newestMatch rest downloadedPath modTime
  | (_, none) :: rest, downloadedPath, modTime => newestMatch rest downloadedPath modTime

/-- What `DownloadMergedToFile` returns on success; `cleanup` is what calling
the returned closure does. -/
structure Merged where
  tempPath : String
  filename : String
  cleanup : List Event
deriving DecidableEq, Repr

/-- `YtDlpService.DownloadMergedToFile(ctx, sourceURL, formatID)`: the
result and the subprocess runs it made. It does not call the validator. -/
def DownloadMergedToFile (env : Env) (sourceURL formatID : String) :
    Except ServiceError Merged × List Event :=
  if env.mkdirAll = false then
    (Except.error (ServiceError.other "failed to create temp dir"), [])
  else if env.ytdlpMerge sourceURL formatID = false then
    (Except.error (ServiceError.other "yt-dlp failed"), [Event.ytdlp sourceURL formatID])
  else
    let downloadedPath := newestMatch env.glob "" 0
    if downloadedPath = "" then
      (Except.error (ServiceError.other "could not find downloaded file"),
        [Event.ytdlp sourceURL formatID])
    else
      (Except.ok { tempPath := downloadedPath, filename := filepathBase downloadedPath,
                   cleanup := [Event.cleanup downloadedPath] },
        [Event.ytdlp sourceURL formatID])

/-! ## handlers/download.go -/

/-- The JSON error object with the given message. -/
def jsonError (msg : String) : String :=
  "\x7b\"error\": \"" ++ msg ++ "\"\x7d"

/-- The `Content-Disposition` value both streaming paths build with
`fmt.Sprintf`. -/
def contentDisposition (sanitizedFilename encodedFilename : String) : String :=
  "attachment; filename=\"" ++ sanitizedFilename ++ "\"; filename*=UTF-8''" ++ encodedFilename

/-- `fmt.Sprintf("%d", n)`. -/
def formatInt (n : Int) : String := toString n

/-- `DownloadHandler.streamDirect`: the response and what it did. Log calls
are left out; the proxy settings of the handler only configure the transport
behind `clientDo`. -/
def streamDirect (env : Env) (w : ResponseWriter) (r : Request) (videoURL formatID : String) :
    ResponseWriter × List Event :=
  match GetDirectURL env videoURL formatID with
  | (Except.error _, ran) =>
    (httpError w (jsonError "Failed to get download URL") 500,
      Event.GetDirectURL videoURL formatID :: ran)
  | (Except.ok streamInfo, ran) =>
    let done := Event.GetDirectURL videoURL formatID :: ran
    if env.newRequest streamInfo.URL = false then
      (httpError w (jsonError "Internal server error") 500, done)
    else
      let rangeHeader := r.Header.Get "Range"
      let reqHeader : Header := if rangeHeader ≠ "" then [("Range", rangeHeader)] else []
      let reqHeader := reqHeader.Set "User-Agent"
        "Mozilla/5.0 (Windows NT 10.0; Win64; x64) AppleWebKit/537.36"
      match env.clientDo streamInfo.URL reqHeader with
      | Except.error _ =>
        (httpError w (jsonError "Failed to download") 500,
          done ++ [Event.fetch streamInfo.URL reqHeader])
      | Except.ok resp =>
        let sanitizedFilename := sanitizeFilename streamInfo.Filename
        let encodedFilename := env.pathEscape streamInfo.Filename
        let w1 := w.setHeader "Content-Type" streamInfo.ContentType
        let w2 := if resp.ContentLength > 0 then
            w1.setHeader "Content-Length" (formatInt resp.ContentLength)
          else w1
        let w3 := w2.setHeader "Content-Disposition"
          (contentDisposition sanitizedFilename encodedFilename)
        let w4 := w3.setHeader "Accept-Ranges" "bytes"
        let w5 := w4.setHeader "Cache-Control" "no-cache"
        let w6 := if resp.StatusCode = 206 then
            (w5.setHeader "Content-Range" (resp.Header.Get "Content-Range")).WriteHeader 206
          else w5
        let copied := ioCopy w6 resp.body resp.bodyFails env.clientAccepts
        (copied.1, done ++ [Event.fetch streamInfo.URL reqHeader, Event.closeBody])

/-- `DownloadHandler.streamMerged`: the response and what it did. The
deferred `file.Close()` and `cleanup()` run, in that order, on every return
after their `defer` statement. -/
def streamMerged (env : Env) (w : ResponseWriter) (_r : Request) (videoURL formatID : String)
    (isAudioOnly : Bool) : ResponseWriter × List Event :=
  match DownloadMergedToFile env videoURL formatID with
  | (Except.error _, ran) =>
    (httpError w (jsonError "Download failed") 500,
      Event.DownloadMergedToFile videoURL formatID :: ran)
  | (Except.ok merged, ran) =>
    let done := Event.DownloadMergedToFile videoURL formatID :: ran
    if env.osOpen merged.tempPath = false then
      (httpError w (jsonError "Stream failed") 500, done ++ merged.cleanup)
    else
      let opened := done ++ [Event.openFile merged.tempPath]
      let deferred := Event.closeFile merged.tempPath :: merged.cleanup
      match env.fileStat merged.tempPath with
      | none => (httpError w (jsonError "Stream failed") 500, opened ++ deferred)
      | some size =>
        let sanitizedFilename := sanitizeFilename merged.filename
        let encodedFilename := env.pathEscape merged.filename
        let contentType := if isAudioOnly then "audio/mp4" else "video/mp4"
        let w1 := w.setHeader "Content-Type" contentType
        let w2 := w1.setHeader "Content-Length" (formatInt size)
        let w3 := w2.setHeader "Content-Disposition"
          (contentDisposition sanitizedFilename encodedFilename)
        let w4 := w3.setHeader "Accept-Ranges" "bytes"
        let w5 := w4.setHeader "Cache-Control" "no-cache"
        let copied := ioCopy w5 (env.fileBody merged.tempPath) false env.clientAccepts
        (copied.1, opened ++ deferred)

/-- What one call of `ServeHTTP` leaves behind: the response, the gate and
the events in order. -/
structure Outcome where
  w : ResponseWriter
  semaphore : Semaphore
  trace : List Event
deriving DecidableEq, Repr

/-- `DownloadHandler.ServeHTTP(w, r)` on the gate `sem`. `none` means the
call never returns (a deferred `Release` that blocks). -/
def ServeHTTP (env : Env) (sem : Semaphore) (w : ResponseWriter) (r : Request) :
    Option Outcome :=
  if r.Method ≠ "GET" then
    some { w := httpError w (jsonError "Method not allowed") 405, semaphore := sem, trace := [] }
  else
    let videoURL := r.queryGet "url"
    let formatID := r.queryGet "format_id"
    let formatType := r.queryGet "type"
    if videoURL = "" then
      some { w := httpError w (jsonError "URL parameter is required") 400,
             semaphore := sem, trace := [] }
    else
      match env.queryUnescape videoURL with
      | none =>
        some { w := httpError w (jsonError "Invalid URL encoding") 400,
               semaphore := sem, trace := [] }
      | some decodedURL =>
        let formatID := if formatID = "" then "best" else formatID
        let acquired := sem.TryAcquire
        if acquired.1 = false then
          let w1 := w.setHeader "Content-Type" "application/json"
          let w2 := w1.WriteHeader 503
          let w3 := w2.Write (jsonError "Сервер занят. Попробуйте позже.")
          some { w := w3, semaphore := acquired.2, trace := [Event.TryAcquire false] }
        else
          let isMergedFormat := strings.Contains formatID "+"
          let isAudioOnly := decide (formatType = "audio")
          let streamed :=
            if isMergedFormat then streamMerged env w r decodedURL formatID isAudioOnly
            else streamDirect env w r decodedURL formatID
          match acquired.2.Release with
          | none => none
          | some released =>
            some { w := streamed.1, semaphore := released,
                   trace := Event.TryAcquire true :: streamed.2 ++ [Event.Release] }

/-- A stand-in for `url.Parse` on plain `scheme://host/path` locators: the
text between `://` and the next slash. -/
def demoParse (u : String) : Option String :=
  let i := strings.Index u "://"
  if i = -1 then some ""
  else some (String.mk ((u.data.drop (i.toNat + 3)).takeWhile (fun c => c ≠ '/')))

/-- An environment for examples: percent-decoding is the identity, the
extraction tool answers with one URL and a file name, the upstream answers
`200` with a two-chunk body, the merge produces one file. -/
def demoEnv : Env where
  queryUnescape := fun u => some u
  urlParse := demoParse
  pathEscape := fun f => f
  ytdlpGetURL := fun _ _ => Except.ok "https://cdn.example/v\nclip.mp4\n"
  newRequest := fun _ => true
  clientDo := fun _ _ => Except.ok
    { StatusCode := 200, Header := [], ContentLength := 4, body := ["ab", "cd"],
      bodyFails := false }
  mkdirAll := true
  ytdlpMerge := fun _ _ => true
  glob := [("/tmp/viddown/dl_1_x.mp4", some 1700000000)]
  osOpen := fun _ => true
  fileStat := fun _ => some 4
  fileBody := fun _ => ["ab", "cd"]
  clientAccepts := none

/-- A `GET /download` request with the given query parameters. -/
def getRequest (query : List (String × String)) : Request :=
  { Method := "GET", query := query, Header := [], RemoteAddr := "10.0.0.1:5555" }

/-- The events that are calls on the gate. -/
def Event.isGate : Event → Bool
  | Event.TryAcquire _ => true
  | Event.Release => true
  | _ => false

/-- The events that are calls of an Extraction Client operation or runs of
the extraction tool. -/
def Event.isExtraction : Event → Bool
  | Event.GetDirectURL _ _ => true
  | Event.DownloadMergedToFile _ _ => true
  | Event.ytdlp _ _ => true
  | _ => false

/-- The format selector after the default: an empty `format_id` is replaced
by `best`. -/
def effectiveFormat (r : Request) : String :=
  if r.queryGet "format_id" = "" then "best" else r.queryGet "format_id"

/-- The events the direct path can produce. -/
def Event.isDirectStep : Event → Bool
  | Event.GetDirectURL _ _ => true
  | Event.ytdlp _ _ => true
  | Event.fetch _ _ => true
  | Event.closeBody => true
  | _ => false

/-- The events the merge path can produce. -/
def Event.isMergedStep : Event → Bool
  | Event.DownloadMergedToFile _ _ => true
  | Event.ytdlp _ _ => true
  | Event.openFile _ => true
  | Event.closeFile _ => true
  | Event.cleanup _ => true
  | _ => false

/-- A handler that counts its invocations in front of the state of `next`. -/
def countingHandler {σ : Type} (next : ResponseWriter → Request → σ → ResponseWriter × σ) :
    ResponseWriter → Request → Nat × σ → ResponseWriter × (Nat × σ) :=
  fun w r st =>
    let out := next w r st.2
    (out.1, (st.1 + 1, out.2))

/-- The `cleanup()` calls among the events. -/
def Event.isCleanup : Event → Bool
  | Event.cleanup _ => true
  | _ => false

/-- The header of the upstream request `streamDirect` builds: the `Range`
header of the client when it has one, and the fixed user agent. -/
def upstreamRequestHeader (r : Request) : Header :=
  Header.Set (if r.Header.Get "Range" ≠ "" then [("Range", r.Header.Get "Range")] else [])
    "User-Agent" "Mozilla/5.0 (Windows NT 10.0; Win64; x64) AppleWebKit/537.36"

/-- The example environment with the upstream answering `resp`. -/
def demoEnvWith (resp : Upstream) : Env :=
  { demoEnv with clientDo := fun _ _ => Except.ok resp }

/-- A `GET /download` request carrying a `Range` header. -/
def rangedRequest (query : List (String × String)) (range : String) : Request :=
  { Method := "GET", query := query, Header := [("Range", range)],
    RemoteAddr := "10.0.0.1:5555" }

/-! ## services/ytdlp.go: format ranking -/

/-- `Format`; the field `Type` is written `Typ`. -/
structure Format where
  ID : String
  Typ : String
  Quality : String
  Ext : String
  Size : Int
deriving DecidableEq, Repr

/-- The value an `int64` holds after an arithmetic result `n`: `n` wrapped
into the range from `-2^63` to `2^63 - 1`. -/
def wrapInt64 (n : Int) : Int :=
  (n + 9223372036854775808) % 18446744073709551616 - 9223372036854775808

namespace strconv

/-- The value of a decimal digit. -/
def digitVal (c : Char) : Option Nat :=
  if 48 ≤ c.toNat ∧ c.toNat ≤ 57 then some (c.toNat - 48) else none

/-- The number a string of decimal digits denotes, `none` when a character
is not a digit. -/
def parseDigits : List Char → Nat → Option Nat
  | [], acc => some acc
  | c :: cs, acc =>
    match digitVal c with
    | none => none
    | some d => parseDigits cs (acc * 10 + d)

/-- `strconv.Atoi(s)`: an optional sign and at least one decimal digit, the
value within the `int` range; `none` is an error. -/
def Atoi (s : String) : Option Int :=
  let negative := decide (s.data.head? = some '-')
  let digits :=
    match s.data with
    | '-' :: t => t
    | '+' :: t => t
    | l => l
  if digits = [] then none
  else
    match parseDigits digits 0 with
    | none => none
    | some n =>
      let v : Int := if negative then -(n : Int) else (n : Int)
      if -9223372036854775808 ≤ v ∧ v ≤ 9223372036854775807 then some v else none

/-- `strconv.Itoa(i)`. -/
def Itoa (i : Int) : String := toString i

end strconv

/-- `extractBitrate(quality)`. -/
def extractBitrate (quality : String) : Int :=
  let quality := strings.TrimSuffix quality "kbps"
  match strconv.Atoi quality with
  | some bitrate => bitrate
  | none => 0

/-- The first loop of `GetBestFormats`: `bestAudio` after the entries given,
starting from the value it has. -/
def bestAudioLoop : List Format → Option Format → Option Format
  | [], bestAudio => bestAudio
  | f :: rest, bestAudio =>
    if f.Typ = "audio" then
      match bestAudio with
      | none => bestAudioLoop rest (some f)
      | some b =>
        if extractBitrate f.Quality > extractBitrate b.Quality then
          bestAudioLoop rest (some f)
        else bestAudioLoop rest (some b)
    else bestAudioLoop rest bestAudio

/-- `resolutions`. -/
def resolutions : List Int := [360, 480, 720, 1080]

/-- `resLabels[res]`; a key not in the map gives the empty string. -/
def resLabels (res : Int) : String :=
  if res = 360 then "360p"
  else if res = 480 then "480p"
  else if res = 720 then "720p HD"
  else if res = 1080 then "1080p Full HD"
  else ""

/-- The inner loop of `GetBestFormats` for one resolution: what it appends
to `best`. The loop stops at the first entry that matches. -/
def ladderLoop (res : Int) (bestAudio : Option Format) : List Format → List Format
  | [] => []
  | f :: rest =>
    if f.Typ = "video" ∧ strings.HasPrefix f.Quality (strconv.Itoa res) = true then
      (match bestAudio with
        | some a =>
          [{ ID := f.ID ++ "+" ++ a.ID, Typ := "video",
             Quality := resLabels res ++ " (видео + аудио)", Ext := "mp4",
             Size := wrapInt64 (f.Size + a.Size) }]
        | none => []) ++
      [{ ID := f.ID, Typ := "video_only", Quality := resLabels res ++ " (только видео)",
         Ext := f.Ext, Size := f.Size }]
    else ladderLoop res bestAudio rest

/-- `YtDlpService.GetBestFormats(formats)`. -/
def GetBestFormats (formats : List Format) : List Format :=
  let bestAudio := bestAudioLoop formats none
  let best : List Format :=
    match bestAudio with
    | some a =>
      [{ ID := a.ID, Typ := "audio", Quality := "Лучшее аудио (" ++ a.Quality ++ ")",
         Ext := "m4a", Size := a.Size }]
    | none => []
  resolutions.foldl (fun best res => best ++ ladderLoop res bestAudio formats) best

/-- Whether an entry is a video candidate for the ladder resolution `r`, as
the ranking policy matches them: type `video` and a quality label that
starts with the decimal digits of `r`. -/
def matchesRung (r : Int) (f : Format) : Bool :=
  decide (f.Typ = "video") && strings.HasPrefix f.Quality (strconv.Itoa r)

/-- The composite element the policy forms from a video `v` and the best
audio `a` at resolution `r`. -/
def compositeElement (r : Int) (v a : Format) : Format :=
  { ID := v.ID ++ "+" ++ a.ID, Typ := "video", Quality := resLabels r ++ " (видео + аудио)",
    Ext := "mp4", Size := wrapInt64 (v.Size + a.Size) }

/-- The video-only element the policy offers for a video `v` at resolution
`r`. -/
def videoOnlyElement (r : Int) (v : Format) : Format :=
  { ID := v.ID, Typ := "video_only", Quality := resLabels r ++ " (только видео)",
    Ext := v.Ext, Size := v.Size }

/-- The best-audio element the policy puts first. -/
def audioElement (a : Format) : Format :=
  { ID := a.ID, Typ := "audio", Quality := "Лучшее аудио (" ++ a.Quality ++ ")",
    Ext := "m4a", Size := a.Size }

/-- What the policy emits for the ladder resolution `r`, in the words of
the specification: nothing when no video entry matches; otherwise, for the
first matching entry in input order, the composite with the best audio when
there is one, immediately followed by the video-only element. -/
def specRung (r : Int) (bestAudio : Option Format) (formats : List Format) : List Format :=
  match formats.find? (matchesRung r) with
  | none => []
  | some v =>
    match bestAudio with
    | some a => [compositeElement r v a, videoOnlyElement r v]
    | none => [videoOnlyElement r v]

/-- A small list of formats for examples: two audio tracks and three
videos. -/
def demoFormats : List Format :=
  [{ ID := "139", Typ := "audio", Quality := "48kbps", Ext := "m4a", Size := 100 },
   { ID := "140", Typ := "audio", Quality := "128kbps", Ext := "m4a", Size := 300 },
   { ID := "134", Typ := "video", Quality := "360p", Ext := "mp4", Size := 1000 },
   { ID := "136", Typ := "video", Quality := "720p", Ext := "mp4", Size := 4000 },
   { ID := "298", Typ := "video", Quality := "720p", Ext := "mp4", Size := 6000 }]

/-! ## Theorems -/

theorem tryAcquireN_room (m : Nat) (s : Semaphore) (h : s.len + m ≤ s.cap) :
    Semaphore.tryAcquireN m s
      = (List.replicate m true, { s with len := s.len + m }) := by
  induction m generalizing s with
  | zero => rfl
  | succ m ih =>
    have hlt : s.len < s.cap := by omega
    have hstep : s.TryAcquire = (true, { s with len := s.len + 1 }) := by
      simp [Semaphore.TryAcquire, hlt]
    have h2 : ({ s with len := s.len + 1 } : Semaphore).len + m
        ≤ ({ s with len := s.len + 1 } : Semaphore).cap := by
      simp only; omega
    simp only [Semaphore.tryAcquireN, hstep, ih _ h2, List.replicate_succ]
    congr 2
    omega

theorem tryAcquireN_full (k : Nat) (s : Semaphore) (h : s.len = s.cap) :
    Semaphore.tryAcquireN k s = (List.replicate k false, s) := by
  induction k with
  | zero => rfl
  | succ k ih =>
    have hstep : s.TryAcquire = (false, s) := by
      simp [Semaphore.TryAcquire, h]
    simp only [Semaphore.tryAcquireN, hstep, ih, List.replicate_succ]

theorem tryAcquireN_add (m k : Nat) (s : Semaphore) :
    Semaphore.tryAcquireN (m + k) s
      = ((Semaphore.tryAcquireN m s).1 ++ (Semaphore.tryAcquireN k (Semaphore.tryAcquireN m s).2).1,
         (Semaphore.tryAcquireN k (Semaphore.tryAcquireN m s).2).2) := by
  induction m generalizing s with
  | zero => simp [Semaphore.tryAcquireN]
  | succ m ih =>
    have e : m + 1 + k = (m + k) + 1 := by omega
    rw [e]
    simp only [Semaphore.tryAcquireN, ih, List.cons_append]

theorem applyOp_len_le (s : Semaphore) (op : SemOp) (h : s.len ≤ s.cap) :
    (s.applyOp op).len ≤ (s.applyOp op).cap ∧ (s.applyOp op).cap = s.cap := by
  cases op with
  | tryAcquire =>
    simp only [Semaphore.applyOp, Semaphore.TryAcquire]
    by_cases hlt : s.len < s.cap
    · simp only [hlt, if_true]; exact ⟨hlt, trivial⟩
    · simp only [hlt, if_false]; exact ⟨h, trivial⟩
  | release =>
    simp only [Semaphore.applyOp, Semaphore.Release]
    by_cases hpos : 0 < s.len
    · simp only [hpos, if_true, Option.getD_some]; exact ⟨by omega, trivial⟩
    · simp only [hpos, if_false, Option.getD_none]; exact ⟨h, trivial⟩

theorem run_len_le (ops : List SemOp) (s : Semaphore) (h : s.len ≤ s.cap) :
    (s.run ops).len ≤ s.cap ∧ (s.run ops).cap = s.cap := by
  induction ops generalizing s with
  | nil => exact ⟨h, rfl⟩
  | cons op ops ih =>
    have h1 := applyOp_len_le s op h
    have h2 := ih (s.applyOp op) h1.1
    simp only [Semaphore.run, List.foldl_cons] at h2 ⊢
    rw [h1.2] at h2
    exact h2

/-- C1: from the empty gate of capacity `N`, `N + k` consecutive `TryAcquire`
calls answer `true` exactly `N` times (the first `N`) and then `false` `k`
times; no sequence of operations drives the outstanding count above `N`; and
from the saturated gate, once a `Release` has returned (it does whenever
`N ≥ 1`), the next `TryAcquire` answers `true` and the one after it `false`. -/
theorem semaphore_admits_exactly_capacity (N k : Nat) :
    NewSemaphore (N : Int) = some { cap := N, len := 0 } ∧
    (Semaphore.tryAcquireN (N + k) { cap := N, len := 0 }).1
      = List.replicate N true ++ List.replicate k false ∧
    (∀ ops : List SemOp,
      ((Semaphore.run { cap := N, len := 0 } ops).len ≤ N) ∧
      (0 : Int) ≤ (Semaphore.run { cap := N, len := 0 } ops).Available) ∧
    (0 < N → ((Semaphore.tryAcquireN (N + k) { cap := N, len := 0 }).2.Release).isSome) ∧
    (∀ s1, (Semaphore.tryAcquireN (N + k) { cap := N, len := 0 }).2.Release = some s1 →
      s1.TryAcquire.1 = true ∧ s1.TryAcquire.2.TryAcquire.1 = false) := by
  have hroom := tryAcquireN_room N { cap := N, len := 0 } (by simp)
  have hfull := tryAcquireN_full k { cap := N, len := 0 + N } (by simp)
  have hall : Semaphore.tryAcquireN (N + k) { cap := N, len := 0 }
      = (List.replicate N true ++ List.replicate k false, { cap := N, len := 0 + N }) := by
    rw [tryAcquireN_add, hroom]
    simp only [hfull]
  refine ⟨?_, ?_, ?_, ?_, ?_⟩
  · simp [NewSemaphore]
  · rw [hall]
  · intro ops
    have h := run_len_le ops { cap := N, len := 0 } (by simp)
    refine ⟨h.1, ?_⟩
    unfold Semaphore.Available
    have h1 := h.1
    have h2 := h.2
    simp only at h1 h2
    rw [h2]
    omega
  · intro hN
    rw [hall]
    simp [Semaphore.Release, hN]
  · intro s1 hs1
    rw [hall] at hs1
    simp only [Semaphore.Release, Nat.zero_add] at hs1
    split at hs1
    · rename_i hN
      cases hs1
      have hlt : N - 1 < N := by omega
      have hback : N - 1 + 1 = N := by omega
      simp [Semaphore.TryAcquire, hlt, hback]
    · cases hs1

/-- C1 at capacity 2 with 3 extra callers. -/
theorem semaphore_admits_exactly_capacity_witness :
    (Semaphore.tryAcquireN (2 + 3) { cap := 2, len := 0 }).1
      = [true, true, false, false, false] :=
  (semaphore_admits_exactly_capacity 2 3).2.1

/-! ### Filename sanitisation -/

theorem byteReplace_sanitize_allowed (c : Char) :
    byteReplace sanitizePairs c ∉ forbiddenChars := by
  simp only [sanitizePairs, byteReplace]
  split_ifs
  all_goals first
    | decide
    | simp [forbiddenChars, *]

theorem byteReplace_of_not_old (pairs : List (Char × Char)) (c : Char)
    (h : c ∉ pairs.map Prod.fst) : byteReplace pairs c = c := by
  induction pairs with
  | nil => rfl
  | cons p rest ih =>
    obtain ⟨o, n⟩ := p
    simp only [List.map_cons, List.mem_cons, not_or] at h
    simp only [byteReplace, h.1, if_false]
    exact ih h.2

theorem forbiddenChars_eq_olds : forbiddenChars = sanitizePairs.map Prod.fst := rfl

/-- C4: `sanitizeFilename` is a total function, and for every input none of
the forbidden characters (double quote, backslash, slash, colon, asterisk,
question mark, `<`, `>`, `|`) occurs in its result. -/
theorem sanitizeFilename_no_forbidden (filename : String) (c : Char)
    (hc : c ∈ forbiddenChars) : c ∉ (sanitizeFilename filename).data := by
  intro hmem
  simp only [sanitizeFilename, replacerReplace, List.mem_map] at hmem
  obtain ⟨d, _, hd⟩ := hmem
  exact byteReplace_sanitize_allowed d (hd ▸ hc)

/-- C4 on a name holding a slash, a colon and a question mark. -/
theorem sanitizeFilename_no_forbidden_witness :
    '/' ∈ forbiddenChars ∧ '/' ∉ (sanitizeFilename "a/b:c?.mp4").data :=
  ⟨by decide, sanitizeFilename_no_forbidden "a/b:c?.mp4" '/' (by decide)⟩

/-- C5: `sanitizeFilename` is idempotent. -/
theorem sanitizeFilename_idempotent (s : String) :
    sanitizeFilename (sanitizeFilename s) = sanitizeFilename s := by
  simp only [sanitizeFilename, replacerReplace, List.map_map]
  congr 1
  apply List.map_congr_left
  intro c _
  simp only [Function.comp_apply]
  apply byteReplace_of_not_old
  rw [← forbiddenChars_eq_olds]
  exact byteReplace_sanitize_allowed c

/-! ### Client identity -/

theorem isPrefixOf_singleton_cons (c d : Char) (ds : List Char) :
    [c].isPrefixOf (d :: ds) = decide (c = d) := by
  simp only [List.isPrefixOf, Bool.and_true]
  by_cases h : c = d <;> simp [h]

theorem indexAux_singleton (c : Char) (l : List Char) (i : Nat) :
    (c ∉ l → strings.indexAux [c] l i = -1) ∧
    (c ∈ l → strings.indexAux [c] l i = ((i + (l.takeWhile (fun x => x ≠ c)).length : Nat) : Int)) := by
  induction l generalizing i with
  | nil =>
    constructor
    · intro _; simp [strings.indexAux, List.isPrefixOf]
    · intro h; cases h
  | cons d ds ih =>
    simp only [strings.indexAux, isPrefixOf_singleton_cons]
    by_cases hcd : c = d
    · subst hcd
      constructor
      · intro h; exact absurd (List.mem_cons_self _ _) h
      · intro _; simp
    · have hdc : d ≠ c := fun h => hcd h.symm
      constructor
      · intro h
        have h2 : c ∉ ds := fun hm => h (List.mem_cons_of_mem _ hm)
        simp [hcd, (ih (i + 1)).1 h2]
      · intro h
        have h2 : c ∈ ds := by
          rcases List.mem_cons.1 h with h | h
          · exact absurd h hcd
          · exact h
        simp only [hcd, decide_False, Bool.false_eq_true, if_false, (ih (i + 1)).2 h2]
        have htw : (d :: ds).takeWhile (fun x => x ≠ c)
            = d :: ds.takeWhile (fun x => x ≠ c) := by
          simp [List.takeWhile_cons, hdc]
        rw [htw, List.length_cons]
        push_cast
        omega

theorem take_length_takeWhile (p : Char → Bool) (l : List Char) :
    l.take (l.takeWhile p).length = l.takeWhile p := by
  induction l with
  | nil => rfl
  | cons d ds ih =>
    simp only [List.takeWhile_cons]
    split
    · simp [ih]
    · simp

theorem takeWhile_ne_of_not_mem (c : Char) (l : List Char) (h : c ∉ l) :
    l.takeWhile (fun x => x ≠ c) = l := by
  induction l with
  | nil => rfl
  | cons d ds ih =>
    simp only [List.mem_cons, not_or] at h
    have hdc : d ≠ c := fun e => h.1 e.symm
    have htw : (d :: ds).takeWhile (fun x => x ≠ c)
        = d :: ds.takeWhile (fun x => x ≠ c) := by
      simp [List.takeWhile_cons, hdc]
    rw [htw, ih h.2]

theorem lastIndexAux_of_not_mem (c : Char) (l : List Char) (i : Nat) (h : c ∉ l) :
    strings.lastIndexAux [c] l i = -1 := by
  induction l generalizing i with
  | nil => simp [strings.lastIndexAux, List.isPrefixOf]
  | cons d ds ih =>
    simp only [List.mem_cons, not_or] at h
    simp only [strings.lastIndexAux, isPrefixOf_singleton_cons, ih (i + 1) h.2]
    simp [h.1]

theorem lastIndexAux_split (c : Char) (pre post : List Char) (i : Nat) (h : c ∉ post) :
    strings.lastIndexAux [c] (pre ++ c :: post) i = ((i + pre.length : Nat) : Int) := by
  induction pre generalizing i with
  | nil =>
    simp only [List.nil_append, strings.lastIndexAux, isPrefixOf_singleton_cons,
      lastIndexAux_of_not_mem c post (i + 1) h]
    simp
  | cons d ds ih =>
    have e : (d :: ds) ++ c :: post = d :: (ds ++ c :: post) := rfl
    have hstep : strings.lastIndexAux [c] (d :: (ds ++ c :: post)) i
        = strings.lastIndexAux [c] (ds ++ c :: post) (i + 1) := by
      have hne : strings.lastIndexAux [c] (ds ++ c :: post) (i + 1) ≠ -1 := by
        rw [ih (i + 1)]; omega
      simp only [strings.lastIndexAux, hne, ne_eq, not_false_eq_true, if_true]
    rw [e, hstep, ih (i + 1), List.length_cons]
    congr 1
    omega

theorem exists_last_split (c : Char) (l : List Char) (h : c ∈ l) :
    ∃ pre post, l = pre ++ c :: post ∧ c ∉ post := by
  induction l with
  | nil => cases h
  | cons d ds ih =>
    by_cases hds : c ∈ ds
    · obtain ⟨pre, post, hl, hp⟩ := ih hds
      exact ⟨d :: pre, post, by rw [hl]; rfl, hp⟩
    · rcases List.mem_cons.1 h with h | h
      · exact ⟨[], ds, by rw [h]; rfl, hds⟩
      · exact absurd h hds

theorem dropWhile_append_of_all (p : Char → Bool) (xs ys : List Char)
    (h : ∀ x ∈ xs, p x = true) : (xs ++ ys).dropWhile p = ys.dropWhile p := by
  induction xs with
  | nil => rfl
  | cons x xs ih =>
    have hx : p x = true := h x (List.mem_cons_self _ _)
    simp only [List.cons_append, List.dropWhile_cons, hx, if_true]
    exact ih (fun y hy => h y (List.mem_cons_of_mem _ hy))

theorem rdropWhile_split (c : Char) (pre post : List Char) (h : c ∉ post) :
    (pre ++ c :: post).rdropWhile (fun x => x ≠ c) = pre ++ [c] := by
  unfold List.rdropWhile
  have hrev : (pre ++ c :: post).reverse = post.reverse ++ (c :: pre.reverse) := by
    simp
  rw [hrev, dropWhile_append_of_all]
  · simp [List.dropWhile_cons]
  · intro x hx
    have hx2 : x ∈ post := List.mem_reverse.1 hx
    have : x ≠ c := fun e => h (e ▸ hx2)
    simp [this]

theorem countAux_singleton (c : Char) (l : List Char) :
    strings.countAux [c] l 0 = l.count c := by
  induction l with
  | nil => rfl
  | cons d ds ih =>
    simp only [strings.countAux, isPrefixOf_singleton_cons, List.length_singleton,
      Nat.sub_self, ih]
    by_cases hcd : c = d
    · subst hcd; simp; omega
    · have hdc : d ≠ c := fun e => hcd e.symm
      simp [hcd, List.count_cons, hdc]

theorem count_eq_zero_of_not_mem (c : Char) (l : List Char) (h : c ∉ l) :
    l.count c = 0 := List.count_eq_zero_of_not_mem h

theorem dropWhile_eq_specTrimLeft (l : List Char) :
    l.dropWhile strings.isSpace = specTrimLeft l := by
  induction l with
  | nil => rfl
  | cons c cs ih =>
    by_cases hc : strings.isSpace c = true
    · simp only [List.dropWhile_cons, hc, if_true, specTrimLeft, ih]
    · simp only [List.dropWhile_cons, hc, if_false, specTrimLeft, Bool.false_eq_true]

theorem specTrimLeft_split (l : List Char) :
    ∃ lead, l = lead ++ specTrimLeft l ∧ (∀ c ∈ lead, strings.isSpace c = true) ∧
      ∀ c, (specTrimLeft l).head? = some c → strings.isSpace c = false := by
  induction l with
  | nil => exact ⟨[], rfl, by simp, by simp [specTrimLeft]⟩
  | cons c cs ih =>
    by_cases hc : strings.isSpace c = true
    · obtain ⟨lead, hl, hlead, hhead⟩ := ih
      refine ⟨c :: lead, ?_, ?_, ?_⟩
      · simp only [specTrimLeft, hc, if_true, List.cons_append]
        rw [← hl]
      · intro d hd
        rcases List.mem_cons.1 hd with h | h
        · rw [h]; exact hc
        · exact hlead d h
      · simpa only [specTrimLeft, hc, if_true] using hhead
    · refine ⟨[], ?_, by simp, ?_⟩
      · simp only [specTrimLeft, hc, if_false, List.nil_append, Bool.false_eq_true]
      · intro d hd
        simp only [specTrimLeft, hc, if_false, List.head?_cons, Option.some.injEq,
          Bool.false_eq_true] at hd
        rw [← hd]
        simpa using hc

theorem specTrimRight_split (l : List Char) :
    ∃ trail, l = specTrimRight l ++ trail ∧ (∀ c ∈ trail, strings.isSpace c = true) ∧
      ∀ c, (specTrimRight l).getLast? = some c → strings.isSpace c = false := by
  induction l with
  | nil => exact ⟨[], rfl, by simp, by simp [specTrimRight]⟩
  | cons c cs ih =>
    obtain ⟨trail, hl, htrail, hlast⟩ := ih
    cases hr : specTrimRight cs with
    | nil =>
      rw [hr] at hl hlast
      by_cases hc : strings.isSpace c = true
      · refine ⟨c :: trail, ?_, ?_, ?_⟩
        · simp only [specTrimRight, hr, hc, if_true, List.nil_append]
          rw [hl]; rfl
        · intro d hd
          rcases List.mem_cons.1 hd with h | h
          · rw [h]; exact hc
          · exact htrail d h
        · simp [specTrimRight, hr, hc]
      · refine ⟨trail, ?_, htrail, ?_⟩
        · simp only [specTrimRight, hr, hc, if_false, Bool.false_eq_true]
          rw [hl]; rfl
        · intro d hd
          simp only [specTrimRight, hr, hc, if_false, Bool.false_eq_true,
            List.getLast?_singleton, Option.some.injEq] at hd
          rw [← hd]
          simpa using hc
    | cons d ds =>
      rw [hr] at hl hlast
      refine ⟨trail, ?_, htrail, ?_⟩
      · simp only [specTrimRight, hr]
        rw [hl]; rfl
      · intro e he
        simp only [specTrimRight, hr] at he
        rw [List.getLast?_cons_cons] at he
        exact hlast e he

theorem rdropWhile_eq_specTrimRight (l : List Char) :
    l.rdropWhile strings.isSpace = specTrimRight l := by
  obtain ⟨trail, hl, htrail, hlast⟩ := specTrimRight_split l
  generalize specTrimRight l = a at hl hlast ⊢
  unfold List.rdropWhile
  rw [hl, List.reverse_append, dropWhile_append_of_all strings.isSpace trail.reverse a.reverse
    (fun c hc => htrail c (List.mem_reverse.1 hc))]
  cases hrev : a.reverse with
  | nil =>
    have : a = [] := by simpa using hrev
    simp [this]
  | cons d ds =>
    have hd : a.getLast? = some d := by
      rw [← List.head?_reverse, hrev]; rfl
    have hnot := hlast d hd
    rw [List.dropWhile_cons, hnot, ← hrev]
    simp

theorem TrimSpace_eq_specTrim (s : String) :
    strings.TrimSpace s = String.mk (specTrimRight (specTrimLeft s.data)) := by
  unfold strings.TrimSpace
  rw [dropWhile_eq_specTrimLeft, rdropWhile_eq_specTrimRight]

theorem specTrim_surrounded (l : List Char) :
    ∃ lead trail, l = lead ++ specTrimRight (specTrimLeft l) ++ trail ∧
      (∀ c ∈ lead, strings.isSpace c = true) ∧ (∀ c ∈ trail, strings.isSpace c = true) ∧
      (∀ c, (specTrimRight (specTrimLeft l)).head? = some c → strings.isSpace c = false) ∧
      (∀ c, (specTrimRight (specTrimLeft l)).getLast? = some c →
        strings.isSpace c = false) := by
  obtain ⟨lead, hl, hlead, hhead⟩ := specTrimLeft_split l
  obtain ⟨trail, hr, htrail, hlast⟩ := specTrimRight_split (specTrimLeft l)
  refine ⟨lead, trail, ?_, hlead, htrail, ?_, hlast⟩
  · rw [List.append_assoc, ← hr, ← hl]
  · intro c hc
    apply hhead c
    rw [hr]
    cases ha : specTrimRight (specTrimLeft l) with
    | nil => rw [ha] at hc; cases hc
    | cons d ds => rw [ha] at hc; simpa using hc

theorem clientIP_address (remoteAddr forwarded : String) :
    (if forwarded ≠ "" then
      (if strings.Index forwarded "," ≠ -1
        then strings.TrimSpace (sliceTo forwarded (strings.Index forwarded ","))
        else strings.TrimSpace forwarded)
     else remoteAddr) = specAddress remoteAddr forwarded := by
  unfold specAddress
  by_cases hf : forwarded = ""
  · simp [hf]
  · simp only [ne_eq, hf, not_false_eq_true, if_true, if_false, TrimSpace_eq_specTrim]
    have hidx := indexAux_singleton ',' forwarded.data 0
    by_cases hmem : ',' ∈ forwarded.data
    · have h1 : strings.Index forwarded ","
          = ((forwarded.data.takeWhile (fun x => x ≠ ',')).length : Int) := by
        have := hidx.2 hmem
        simpa [strings.Index] using this
      have hne : strings.Index forwarded "," ≠ -1 := by rw [h1]; omega
      simp only [hne, ne_eq, not_false_eq_true, if_true]
      simp only [sliceTo, h1, Int.toNat_ofNat, take_length_takeWhile]
    · have h1 : strings.Index forwarded "," = -1 := hidx.1 hmem
      simp only [h1, ne_eq, not_true_eq_false, if_false]
      rw [takeWhile_ne_of_not_mem ',' forwarded.data hmem]

theorem stripPort_spec (ip : String) :
    (if strings.LastIndex ip ":" ≠ -1 then
      (if strings.Count ip ":" = 1 then sliceTo ip (strings.LastIndex ip ":") else ip)
     else ip)
    = (if ip.data.count ':' = 1 then
        String.mk ((ip.data.rdropWhile (fun c => c ≠ ':')).dropLast)
       else ip) := by
  have hcount : strings.Count ip ":" = ip.data.count ':' := by
    show (if [':'] = [] then _ else strings.countAux [':'] ip.data 0) = _
    simp only [List.cons_ne_nil, if_false]
    exact countAux_singleton ':' ip.data
  by_cases hmem : ':' ∈ ip.data
  · obtain ⟨pre, post, hl, hp⟩ := exists_last_split ':' ip.data hmem
    have h1 : strings.LastIndex ip ":" = (pre.length : Int) := by
      show strings.lastIndexAux [':'] ip.data 0 = _
      rw [hl, lastIndexAux_split ':' pre post 0 hp]
      simp
    have hne : strings.LastIndex ip ":" ≠ -1 := by rw [h1]; omega
    simp only [hne, ne_eq, not_false_eq_true, if_true, hcount]
    by_cases hc : ip.data.count ':' = 1
    · simp only [hc, if_true, sliceTo, h1, Int.toNat_ofNat]
      congr 1
      rw [hl, rdropWhile_split ':' pre post hp]
      simp
    · simp only [hc, if_false]
  · have h1 : strings.LastIndex ip ":" = -1 :=
      lastIndexAux_of_not_mem ':' ip.data 0 hmem
    have hc : ip.data.count ':' ≠ 1 := by
      rw [count_eq_zero_of_not_mem ':' ip.data hmem]; omega
    simp only [h1, ne_eq, not_true_eq_false, if_false, hc]

/-- C8: the identity `RateLimiter.Middleware` computes is the specified one:
for a non-empty `X-Forwarded-For` the text before its first comma (the whole
header when it has none) with surrounding white space trimmed, otherwise
`RemoteAddr`; and the text from the last colon onward is cut off exactly
when that address holds exactly one colon, so an address with no colon or
several colons is used unchanged. Trimmed means: the text before the first
comma is the address between a run of white space on either side, and the
address neither starts nor ends with white space. -/
theorem clientIP_eq_specIdentity (remoteAddr forwarded : String) :
    clientIP remoteAddr forwarded = specIdentity remoteAddr forwarded ∧
    (forwarded = "" → specAddress remoteAddr forwarded = remoteAddr) ∧
    (forwarded ≠ "" →
      ∃ lead trail : List Char,
        forwarded.data.takeWhile (fun c => c ≠ ',')
          = lead ++ (specAddress remoteAddr forwarded).data ++ trail ∧
        (∀ c ∈ lead, strings.isSpace c = true) ∧
        (∀ c ∈ trail, strings.isSpace c = true) ∧
        (∀ c, (specAddress remoteAddr forwarded).data.head? = some c →
          strings.isSpace c = false) ∧
        (∀ c, (specAddress remoteAddr forwarded).data.getLast? = some c →
          strings.isSpace c = false)) := by
  refine ⟨?_, ?_, ?_⟩
  · unfold clientIP specIdentity
    simp only []
    rw [clientIP_address, stripPort_spec]
  · intro hf
    simp [specAddress, hf]
  · intro hf
    simp only [specAddress, hf, if_false]
    exact specTrim_surrounded _

/-- C8 on a forwarded-for chain whose first hop is surrounded by blanks and
a tab and carries a port, on a peer address with a port, on an IPv6 peer
address, and on a first hop between no-break spaces and a line feed: the
code and the specified identity are evaluated separately and agree. -/
theorem clientIP_eq_specIdentity_witness :
    (clientIP "10.0.0.1:5555" " \t 1.2.3.4:80 \t, 5.6.7.8" = "1.2.3.4" ∧
      specIdentity "10.0.0.1:5555" " \t 1.2.3.4:80 \t, 5.6.7.8" = "1.2.3.4") ∧
    (clientIP "10.0.0.1:5555" "" = "10.0.0.1" ∧
      specIdentity "10.0.0.1:5555" "" = "10.0.0.1") ∧
    (clientIP "[2001:db8::1]:5555" "" = "[2001:db8::1]:5555" ∧
      specIdentity "[2001:db8::1]:5555" "" = "[2001:db8::1]:5555") ∧
    (clientIP "10.0.0.1:5555" "\u00a0 9.9.9.9\u00a0\n" = "9.9.9.9" ∧
      specIdentity "10.0.0.1:5555" "\u00a0 9.9.9.9\u00a0\n" = "9.9.9.9") :=
  ⟨⟨by decide,
     (clientIP_eq_specIdentity "10.0.0.1:5555" " \t 1.2.3.4:80 \t, 5.6.7.8").1.symm.trans
       (by decide)⟩,
   ⟨by decide, (clientIP_eq_specIdentity "10.0.0.1:5555" "").1.symm.trans (by decide)⟩,
   ⟨by decide, (clientIP_eq_specIdentity "[2001:db8::1]:5555" "").1.symm.trans (by decide)⟩,
   ⟨by decide,
     (clientIP_eq_specIdentity "10.0.0.1:5555" "\u00a0 9.9.9.9\u00a0\n").1.symm.trans
       (by decide)⟩⟩

/-! ### Rate limiter -/

theorem mapGet_mapSet_self {β : Type} (m : List (String × β)) (k : String) (v : β) :
    mapGet (mapSet m k v) k = some v := by
  induction m with
  | nil => simp [mapSet, mapGet]
  | cons e rest ih =>
    obtain ⟨k', v'⟩ := e
    by_cases h : k' = k
    · simp [mapSet, mapGet, h]
    · simp [mapSet, mapGet, h, ih]

set_option maxRecDepth 100000 in
/-- The one place where rounding decides, at rate 60 (refill interval one
second): after a burst of 60 at time 0, a request 999999999 ns later misses
exactly one nanosecond of credit and is admitted or refused as `tie` says;
a request one nanosecond earlier is refused either way. -/
theorem allow_rounding_tie_at_rate_60 :
    ((NewRateLimiter 60).allowSeq "203.0.113.7"
        (List.replicate 60 (0, 0, false) ++ [(999999999, 999999999, true)])).map Prod.fst
      = some (List.replicate 61 true) ∧
    ((NewRateLimiter 60).allowSeq "203.0.113.7"
        (List.replicate 60 (0, 0, false) ++ [(999999999, 999999999, false)])).map Prod.fst
      = some (List.replicate 60 true ++ [false]) ∧
    ((NewRateLimiter 60).allowSeq "203.0.113.7"
        (List.replicate 60 (0, 0, false) ++ [(999999998, 999999998, true)])).map Prod.fst
      = some (List.replicate 60 true ++ [false]) := by
  decide

/-! ### Idle-bucket sweep -/

theorem sweep_foldl (now : Int) (entries m : List (String × visitor)) :
    entries.foldl
        (fun m e => if now - e.2.lastSeen > 3 * minute then mapDelete m e.1 else m) m
      = m.filter (fun a => entries.all
          (fun x => !(decide (now - x.2.lastSeen > 3 * minute)) || decide (x.1 ≠ a.1))) := by
  induction entries generalizing m with
  | nil => simp
  | cons e es ih =>
    simp only [List.foldl_cons, ih, List.all_cons]
    by_cases hexp : now - e.2.lastSeen > 3 * minute
    · simp only [hexp, if_true, mapDelete, List.filter_filter, decide_True, Bool.not_true,
        Bool.false_or]
      congr 1
      funext a
      by_cases hk : e.1 = a.1
      · simp [hk]
      · have hk2 : a.1 ≠ e.1 := fun h => hk h.symm
        simp [hk, hk2]
    · simp only [hexp, if_false, decide_False, Bool.not_false, Bool.true_or, Bool.true_and]

theorem mapGet_filter_key {β : Type} (Q : String → Bool) (m : List (String × β)) (k : String) :
    mapGet (m.filter (fun a => Q a.1)) k = if Q k then mapGet m k else none := by
  induction m with
  | nil => simp [mapGet]
  | cons e rest ih =>
    obtain ⟨k', v'⟩ := e
    by_cases hQ : Q k' = true
    · simp only [List.filter_cons, hQ, if_true, mapGet, ih]
      by_cases hk : k' = k
      · subst hk; simp [hQ]
      · simp [hk]
    · simp only [List.filter_cons, hQ, if_false, mapGet, ih, Bool.false_eq_true]
      by_cases hk : k' = k
      · subst hk; simp [hQ]
      · simp [hk]

theorem mem_of_mapGet {β : Type} (m : List (String × β)) (k : String) (v : β)
    (h : mapGet m k = some v) : (k, v) ∈ m := by
  induction m with
  | nil => simp [mapGet] at h
  | cons e rest ih =>
    obtain ⟨k', v'⟩ := e
    by_cases hk : k' = k
    · subst hk
      simp only [mapGet, if_true, Option.some.injEq] at h
      subst h
      exact List.mem_cons_self _ _
    · simp only [mapGet, hk, if_false] at h
      exact List.mem_cons_of_mem _ (ih h)

theorem mapGet_none_iff {β : Type} (m : List (String × β)) (k : String) :
    mapGet m k = none ↔ ∀ e ∈ m, e.1 ≠ k := by
  induction m with
  | nil => simp [mapGet]
  | cons e rest ih =>
    obtain ⟨k', v'⟩ := e
    by_cases hk : k' = k
    · simp [mapGet, hk]
    · simp [mapGet, hk, ih]

theorem value_unique_of_nodup {β : Type} (m : List (String × β)) (k : String) (v w : β)
    (hnd : (m.map Prod.fst).Nodup) (h : mapGet m k = some v) (hw : (k, w) ∈ m) : w = v := by
  induction m with
  | nil => cases hw
  | cons e rest ih =>
    obtain ⟨k', v'⟩ := e
    have hnd2 := List.nodup_cons.1 (show (k' :: rest.map Prod.fst).Nodup from hnd)
    by_cases hk : k' = k
    · subst hk
      simp only [mapGet, if_true, Option.some.injEq] at h
      subst h
      rcases List.mem_cons.1 hw with hw | hw
      · exact (Prod.mk.inj hw).2
      · exact absurd (List.mem_map_of_mem Prod.fst hw) hnd2.1
    · simp only [mapGet, hk, if_false] at h
      rcases List.mem_cons.1 hw with hw | hw
      · exact absurd (Prod.mk.inj hw).1.symm hk
      · exact ih hnd2.2 h hw

theorem cleanupVisitorsPass_get (rl : RateLimiter) (now : Int) (ip : String) :
    mapGet (rl.cleanupVisitorsPass now).visitors ip
      = if rl.visitors.all
            (fun x => !(decide (now - x.2.lastSeen > 3 * minute)) || decide (x.1 ≠ ip))
        then mapGet rl.visitors ip else none := by
  simp only [RateLimiter.cleanupVisitorsPass, sweep_foldl]
  exact mapGet_filter_key
    (fun k => rl.visitors.all
      (fun x => !(decide (now - x.2.lastSeen > 3 * minute)) || decide (x.1 ≠ k)))
    rl.visitors ip

/-- C7: one sweep pass of `cleanupVisitors` at time `now` over a visitor
table (a Go map, one entry per identity): an identity last seen more than
three minutes before `now` is absent afterwards; an identity last seen at
most three minutes before `now` (exactly three minutes included) is still
present with its limiter and time stamp unchanged; an identity that was
absent stays absent; the configured rate is untouched. -/
theorem cleanupVisitorsPass_evicts_idle (rl : RateLimiter) (now : Int) (ip : String)
    (hnd : (rl.visitors.map Prod.fst).Nodup) :
    (∀ v, mapGet rl.visitors ip = some v → now - v.lastSeen > 3 * minute →
      mapGet (rl.cleanupVisitorsPass now).visitors ip = none) ∧
    (∀ v, mapGet rl.visitors ip = some v → now - v.lastSeen ≤ 3 * minute →
      mapGet (rl.cleanupVisitorsPass now).visitors ip = some v) ∧
    (mapGet rl.visitors ip = none →
      mapGet (rl.cleanupVisitorsPass now).visitors ip = none) ∧
    (rl.cleanupVisitorsPass now).rpm = rl.rpm := by
  refine ⟨?_, ?_, ?_, rfl⟩
  · intro v hget hexp
    rw [cleanupVisitorsPass_get]
    have hmem := mem_of_mapGet _ _ _ hget
    have hQ : ¬ (rl.visitors.all
        (fun x => !(decide (now - x.2.lastSeen > 3 * minute)) || decide (x.1 ≠ ip)) = true) := by
      intro hall
      have := List.all_eq_true.1 hall (ip, v) hmem
      simp [hexp] at this
    rw [if_neg hQ]
  · intro v hget hfresh
    rw [cleanupVisitorsPass_get]
    have hQ : rl.visitors.all
        (fun x => !(decide (now - x.2.lastSeen > 3 * minute)) || decide (x.1 ≠ ip)) = true := by
      apply List.all_eq_true.2
      intro x hx
      obtain ⟨k, w⟩ := x
      by_cases hk : k = ip
      · subst hk
        have hw := value_unique_of_nodup _ _ _ w hnd hget hx
        subst hw
        have : ¬ (now - w.lastSeen > 3 * minute) := not_lt.mpr hfresh
        simp [this]
      · simp [hk]
    rw [if_pos hQ, hget]
  · intro hget
    rw [cleanupVisitorsPass_get, hget]
    simp

/-- C7 on a table of two identities, one idle for four minutes and one for
exactly three. -/
theorem cleanupVisitorsPass_evicts_idle_witness :
    mapGet (RateLimiter.cleanupVisitorsPass
      { visitors := [("10.0.0.1", { limiter := NewLimiter (rateEvery minute) 1, lastSeen := 0 }),
                     ("10.0.0.2", { limiter := NewLimiter (rateEvery minute) 1,
                                    lastSeen := 1 * minute })],
        rpm := 1 } (4 * minute)).visitors "10.0.0.2"
      = some { limiter := NewLimiter (rateEvery minute) 1, lastSeen := 1 * minute } :=
  (cleanupVisitorsPass_evicts_idle
    { visitors := [("10.0.0.1", { limiter := NewLimiter (rateEvery minute) 1, lastSeen := 0 }),
                   ("10.0.0.2", { limiter := NewLimiter (rateEvery minute) 1,
                                  lastSeen := 1 * minute })],
      rpm := 1 } (4 * minute) "10.0.0.2" (by decide)).2.1 _ (by decide) (by decide)

/-! ### The download handler -/

theorem release_after_acquire (sem : Semaphore) (h : sem.TryAcquire.1 = true) :
    sem.TryAcquire.2.Release = some sem := by
  unfold Semaphore.TryAcquire at h ⊢
  by_cases hlt : sem.len < sem.cap
  · simp [hlt, Semaphore.Release]
  · simp [hlt] at h

theorem tryAcquire_false_state (sem : Semaphore) (h : sem.TryAcquire.1 = false) :
    sem.TryAcquire.2 = sem := by
  unfold Semaphore.TryAcquire at h ⊢
  by_cases hlt : sem.len < sem.cap
  · simp [hlt] at h
  · simp [hlt]

theorem httpError_status (w : ResponseWriter) (msg : String) (code : Nat)
    (hw : w.sent = none) : (httpError w msg code).status = code := by
  simp [httpError, ResponseWriter.setHeader, ResponseWriter.WriteHeader,
    ResponseWriter.Write, ResponseWriter.status, hw]

theorem contains_plus_iff (s : String) :
    strings.Contains s "+" = true ↔ '+' ∈ s.data := by
  have h := indexAux_singleton '+' s.data 0
  unfold strings.Contains strings.Index
  show decide (0 ≤ strings.indexAux ['+'] s.data 0) = true ↔ _
  by_cases hmem : '+' ∈ s.data
  · rw [h.2 hmem]
    simp [hmem]
  · rw [h.1 hmem]
    simp [hmem]

theorem ServeHTTP_admitted (env : Env) (sem : Semaphore) (w : ResponseWriter) (r : Request)
    (decodedURL : String) (hget : r.Method = "GET") (hurl : r.queryGet "url" ≠ "")
    (hdec : env.queryUnescape (r.queryGet "url") = some decodedURL)
    (hadm : sem.TryAcquire.1 = true) :
    ServeHTTP env sem w r = some
      { w := (if strings.Contains (effectiveFormat r) "+" = true then
            streamMerged env w r decodedURL (effectiveFormat r)
              (decide (r.queryGet "type" = "audio"))
          else streamDirect env w r decodedURL (effectiveFormat r)).1,
        semaphore := sem,
        trace := Event.TryAcquire true ::
          (if strings.Contains (effectiveFormat r) "+" = true then
            streamMerged env w r decodedURL (effectiveFormat r)
              (decide (r.queryGet "type" = "audio"))
          else streamDirect env w r decodedURL (effectiveFormat r)).2 ++ [Event.Release] } := by
  simp only [ServeHTTP, hget, ne_eq, not_true_eq_false, if_false, hurl, hdec, hadm,
    Bool.true_eq_false, release_after_acquire sem hadm, effectiveFormat]

theorem ServeHTTP_busy (env : Env) (sem : Semaphore) (w : ResponseWriter) (r : Request)
    (decodedURL : String) (hget : r.Method = "GET") (hurl : r.queryGet "url" ≠ "")
    (hdec : env.queryUnescape (r.queryGet "url") = some decodedURL)
    (hbusy : sem.TryAcquire.1 = false) :
    ServeHTTP env sem w r = some
      { w := ((w.setHeader "Content-Type" "application/json").WriteHeader 503).Write
          (jsonError "Сервер занят. Попробуйте позже."),
        semaphore := sem, trace := [Event.TryAcquire false] } := by
  simp only [ServeHTTP, hget, ne_eq, not_true_eq_false, if_false, hurl, hdec, hbusy, if_true,
    tryAcquire_false_state sem hbusy]

theorem getDirectURL_events (env : Env) (url formatID : String) :
    ∀ e ∈ (GetDirectURL env url formatID).2, e = Event.ytdlp url formatID := by
  unfold GetDirectURL
  split
  · simp
  · split
    · simp
    · simp only []
      split <;> simp

theorem downloadMerged_events (env : Env) (url formatID : String) :
    ∀ e ∈ (DownloadMergedToFile env url formatID).2, e = Event.ytdlp url formatID := by
  unfold DownloadMergedToFile
  split
  · simp
  · split
    · simp
    · simp only []
      split <;> simp

theorem all_of_forall_eq (ran : List Event) (x : Event) (p : Event → Bool)
    (hx : p x = true) (h : ∀ e ∈ ran, e = x) : ran.all p = true := by
  apply List.all_eq_true.2
  intro e he
  rw [h e he]
  exact hx

theorem streamDirect_events (env : Env) (w : ResponseWriter) (r : Request)
    (u f : String) :
    (streamDirect env w r u f).2.all Event.isDirectStep = true := by
  have hran := all_of_forall_eq _ (Event.ytdlp u f) Event.isDirectStep rfl (getDirectURL_events env u f)
  unfold streamDirect
  generalize GetDirectURL env u f = g at hran ⊢
  obtain ⟨res, ran⟩ := g
  simp only [] at hran
  cases res with
  | error err => simp [Event.isDirectStep, hran]
  | ok info =>
    simp only []
    split
    · simp [Event.isDirectStep, hran]
    · split <;> simp [Event.isDirectStep, hran]

theorem downloadMerged_cleanup (env : Env) (u f : String) (m : Merged)
    (hm : (DownloadMergedToFile env u f).1 = Except.ok m) :
    m.cleanup = [Event.cleanup m.tempPath] := by
  unfold DownloadMergedToFile at hm
  split at hm
  · cases hm
  · split at hm
    · cases hm
    · simp only [] at hm
      split at hm
      · cases hm
      · cases hm
        rfl

theorem streamMerged_events (env : Env) (w : ResponseWriter) (r : Request)
    (u f : String) (audio : Bool) :
    (streamMerged env w r u f audio).2.all Event.isMergedStep = true := by
  have hran := all_of_forall_eq _ (Event.ytdlp u f) Event.isMergedStep rfl (downloadMerged_events env u f)
  have hclean := downloadMerged_cleanup env u f
  unfold streamMerged
  generalize DownloadMergedToFile env u f = g at hran hclean ⊢
  obtain ⟨res, ran⟩ := g
  simp only [] at hran
  cases res with
  | error err => simp [Event.isMergedStep, hran]
  | ok m =>
    have hc := hclean m rfl
    simp only [hc]
    split
    · simp [Event.isMergedStep, hran]
    · split <;> simp [Event.isMergedStep, hran]

theorem stream_no_gate (env : Env) (w : ResponseWriter) (r : Request) (u f : String)
    (audio : Bool) (merged : Prop) [Decidable merged] :
    ∀ e ∈ (if merged then streamMerged env w r u f audio
           else streamDirect env w r u f).2, e.isGate = false := by
  intro e he
  by_cases hm : merged
  · rw [if_pos hm] at he
    have h := List.all_eq_true.1 (streamMerged_events env w r u f audio) e he
    cases e <;> first | rfl | cases h
  · rw [if_neg hm] at he
    have h := List.all_eq_true.1 (streamDirect_events env w r u f) e he
    cases e <;> first | rfl | cases h

theorem ServeHTTP_method (env : Env) (sem : Semaphore) (w : ResponseWriter) (r : Request)
    (hm : r.Method ≠ "GET") :
    ServeHTTP env sem w r = some
      { w := httpError w (jsonError "Method not allowed") 405, semaphore := sem, trace := [] } := by
  simp only [ServeHTTP, hm, ne_eq, not_false_eq_true, if_true]

theorem ServeHTTP_no_url (env : Env) (sem : Semaphore) (w : ResponseWriter) (r : Request)
    (hget : r.Method = "GET") (hurl : r.queryGet "url" = "") :
    ServeHTTP env sem w r = some
      { w := httpError w (jsonError "URL parameter is required") 400,
        semaphore := sem, trace := [] } := by
  simp only [ServeHTTP, hget, ne_eq, not_true_eq_false, if_false, hurl, if_true]

theorem ServeHTTP_bad_encoding (env : Env) (sem : Semaphore) (w : ResponseWriter) (r : Request)
    (hget : r.Method = "GET") (hurl : r.queryGet "url" ≠ "")
    (hdec : env.queryUnescape (r.queryGet "url") = none) :
    ServeHTTP env sem w r = some
      { w := httpError w (jsonError "Invalid URL encoding") 400,
        semaphore := sem, trace := [] } := by
  simp only [ServeHTTP, hget, ne_eq, not_true_eq_false, if_false, hurl, hdec]

theorem count_release_bracket (tr : List Event) (h : ∀ e ∈ tr, e.isGate = false) :
    (Event.TryAcquire true :: tr ++ [Event.Release]).count Event.Release = 1 ∧
    (Event.TryAcquire true :: tr ++ [Event.Release]).count (Event.TryAcquire true) = 1 ∧
    (Event.TryAcquire true :: tr ++ [Event.Release]).count (Event.TryAcquire false) = 0 := by
  have h1 : tr.count Event.Release = 0 :=
    List.count_eq_zero_of_not_mem (fun hm => by simpa [Event.isGate] using h _ hm)
  have h2 : ∀ b, tr.count (Event.TryAcquire b) = 0 := fun b =>
    List.count_eq_zero_of_not_mem (fun hm => by simpa [Event.isGate] using h _ hm)
  refine ⟨?_, ?_, ?_⟩
  · simp [List.count_cons, List.count_append, h1]
  · simp [List.count_cons, List.count_append, h2]
  · simp [List.count_cons, List.count_append, h2]

/-- C2: for every request and every behaviour of the extraction tool, the
upstream, the file system and the client, `ServeHTTP` returns; it calls
`Release` exactly once when its `TryAcquire` returned `true` and never
otherwise (in particular never without a `TryAcquire`); and the gate, hence
`Available()`, is afterwards what it was before the call. -/
theorem ServeHTTP_release_balanced (env : Env) (sem : Semaphore) (w : ResponseWriter)
    (r : Request) :
    ∃ out, ServeHTTP env sem w r = some out ∧
      (Event.TryAcquire true ∈ out.trace → out.trace.count Event.Release = 1) ∧
      (Event.TryAcquire true ∉ out.trace → out.trace.count Event.Release = 0) ∧
      out.trace.count (Event.TryAcquire true) + out.trace.count (Event.TryAcquire false) ≤ 1 ∧
      (Event.TryAcquire true ∈ out.trace ↔
        (r.Method = "GET" ∧ r.queryGet "url" ≠ "" ∧
          env.queryUnescape (r.queryGet "url") ≠ none ∧ sem.TryAcquire.1 = true)) ∧
      out.semaphore = sem ∧ out.semaphore.Available = sem.Available := by
  by_cases hget : r.Method = "GET"
  · by_cases hurl : r.queryGet "url" = ""
    · exact ⟨_, ServeHTTP_no_url env sem w r hget hurl, by simp [hurl]⟩
    · cases hdec : env.queryUnescape (r.queryGet "url") with
      | none => exact ⟨_, ServeHTTP_bad_encoding env sem w r hget hurl hdec, by simp⟩
      | some decodedURL =>
        cases hacq : sem.TryAcquire.1 with
        | false =>
          exact ⟨_, ServeHTTP_busy env sem w r decodedURL hget hurl hdec hacq, by simp⟩
        | true =>
          refine ⟨_, ServeHTTP_admitted env sem w r decodedURL hget hurl hdec hacq, ?_⟩
          have hc := count_release_bracket _
            (stream_no_gate env w r decodedURL (effectiveFormat r)
              (decide (r.queryGet "type" = "audio"))
              (strings.Contains (effectiveFormat r) "+" = true))
          refine ⟨fun _ => hc.1, fun h => absurd (List.mem_cons_self _ _) h, ?_, ?_, rfl, rfl⟩
          · show List.count (Event.TryAcquire true) _ + List.count (Event.TryAcquire false) _ ≤ 1
            rw [hc.2.1, hc.2.2]
          · exact ⟨fun _ => ⟨hget, hurl, by simp, rfl⟩, fun _ => List.mem_cons_self _ _⟩
  · exact ⟨_, ServeHTTP_method env sem w r hget, by simp [hget]⟩

/-- C3: an admitted GET request is handed to exactly one delivery strategy.
With the format selector taken after the default (`best` for an empty
`format_id`), the response and the events are those of `streamMerged` when
the selector contains `+`, with no `GetDirectURL` call, and those of
`streamDirect` when it does not, with no `DownloadMergedToFile` call. -/
theorem ServeHTTP_strategy (env : Env) (sem : Semaphore) (w : ResponseWriter) (r : Request)
    (decodedURL : String) (hget : r.Method = "GET") (hurl : r.queryGet "url" ≠ "")
    (hdec : env.queryUnescape (r.queryGet "url") = some decodedURL)
    (hadm : sem.TryAcquire.1 = true) :
    ∃ out, ServeHTTP env sem w r = some out ∧
      (r.queryGet "format_id" = "" → effectiveFormat r = "best") ∧
      (r.queryGet "format_id" ≠ "" → effectiveFormat r = r.queryGet "format_id") ∧
      ('+' ∈ (effectiveFormat r).data →
        out.w = (streamMerged env w r decodedURL (effectiveFormat r)
          (decide (r.queryGet "type" = "audio"))).1 ∧
        out.trace = Event.TryAcquire true ::
          (streamMerged env w r decodedURL (effectiveFormat r)
            (decide (r.queryGet "type" = "audio"))).2 ++ [Event.Release] ∧
        ∀ u f, Event.GetDirectURL u f ∉ out.trace) ∧
      ('+' ∉ (effectiveFormat r).data →
        out.w = (streamDirect env w r decodedURL (effectiveFormat r)).1 ∧
        out.trace = Event.TryAcquire true ::
          (streamDirect env w r decodedURL (effectiveFormat r)).2 ++ [Event.Release] ∧
        ∀ u f, Event.DownloadMergedToFile u f ∉ out.trace) := by
  refine ⟨_, ServeHTTP_admitted env sem w r decodedURL hget hurl hdec hadm, ?_, ?_, ?_, ?_⟩
  · intro h; simp [effectiveFormat, h]
  · intro h; simp [effectiveFormat, h]
  · intro hplus
    have hc : strings.Contains (effectiveFormat r) "+" = true :=
      (contains_plus_iff _).2 hplus
    simp only [hc, if_true, true_and]
    intro u f hmem
    rcases List.mem_cons.1 hmem with h | h
    · cases h
    · rcases List.mem_append.1 h with h | h
      · have := List.all_eq_true.1 (streamMerged_events env w r decodedURL (effectiveFormat r)
          (decide (r.queryGet "type" = "audio"))) _ h
        cases this
      · cases List.mem_singleton.1 h
  · intro hplus
    have hc : ¬ (strings.Contains (effectiveFormat r) "+" = true) :=
      fun h => hplus ((contains_plus_iff _).1 h)
    simp only [hc, Bool.false_eq_true, if_false, true_and]
    intro u f hmem
    rcases List.mem_cons.1 hmem with h | h
    · cases h
    · rcases List.mem_append.1 h with h | h
      · have := List.all_eq_true.1
          (streamDirect_events env w r decodedURL (effectiveFormat r)) _ h
        cases this
      · cases List.mem_singleton.1 h

/-- C3 on the selectors `137+140`, `18` and the empty one. -/
theorem ServeHTTP_strategy_witness :
    (∃ out, ServeHTTP demoEnv { cap := 2, len := 0 } ResponseWriter.new
        (getRequest [("url", "https://youtube.com/watch"), ("format_id", "137+140")]) = some out ∧
      Event.DownloadMergedToFile "https://youtube.com/watch" "137+140" ∈ out.trace ∧
      ∀ u f, Event.GetDirectURL u f ∉ out.trace) ∧
    (∃ out, ServeHTTP demoEnv { cap := 2, len := 0 } ResponseWriter.new
        (getRequest [("url", "https://youtube.com/watch"), ("format_id", "18")]) = some out ∧
      Event.GetDirectURL "https://youtube.com/watch" "18" ∈ out.trace ∧
      ∀ u f, Event.DownloadMergedToFile u f ∉ out.trace) ∧
    (∃ out, ServeHTTP demoEnv { cap := 2, len := 0 } ResponseWriter.new
        (getRequest [("url", "https://youtube.com/watch")]) = some out ∧
      Event.GetDirectURL "https://youtube.com/watch" "best" ∈ out.trace ∧
      ∀ u f, Event.DownloadMergedToFile u f ∉ out.trace) := by
  refine ⟨?_, ?_, ?_⟩
  · obtain ⟨out, h, _, _, hm, _⟩ := ServeHTTP_strategy demoEnv { cap := 2, len := 0 }
      ResponseWriter.new
      (getRequest [("url", "https://youtube.com/watch"), ("format_id", "137+140")])
      "https://youtube.com/watch" rfl (by decide) rfl rfl
    have h2 := hm (by decide)
    exact ⟨out, h, by rw [h2.2.1]; decide, h2.2.2⟩
  · obtain ⟨out, h, _, _, _, hd⟩ := ServeHTTP_strategy demoEnv { cap := 2, len := 0 }
      ResponseWriter.new
      (getRequest [("url", "https://youtube.com/watch"), ("format_id", "18")])
      "https://youtube.com/watch" rfl (by decide) rfl rfl
    have h2 := hd (by decide)
    exact ⟨out, h, by rw [h2.2.1]; decide, h2.2.2⟩
  · obtain ⟨out, h, _, _, _, hd⟩ := ServeHTTP_strategy demoEnv { cap := 2, len := 0 }
      ResponseWriter.new
      (getRequest [("url", "https://youtube.com/watch")])
      "https://youtube.com/watch" rfl (by decide) rfl rfl
    have h2 := hd (by decide)
    exact ⟨out, h, by rw [h2.2.1]; decide, h2.2.2⟩

theorem busy_status (w : ResponseWriter) (hw : w.sent = none) (msg : String) :
    (((w.setHeader "Content-Type" "application/json").WriteHeader 503).Write msg).status
      = 503 := by
  simp [ResponseWriter.setHeader, ResponseWriter.WriteHeader, ResponseWriter.Write,
    ResponseWriter.status, hw]

/-- C9: on a response that has not been started, `ServeHTTP` answers 405
when the method is not GET; otherwise 400 when the `url` parameter is
missing (empty) or cannot be percent-decoded; otherwise 503 when
`TryAcquire` returns `false`. In these three cases no Extraction Client
operation is invoked and the extraction tool is not run: nothing happens at
all in the first two, and the failed `TryAcquire` is the only event in the
third. -/
theorem ServeHTTP_rejections (env : Env) (sem : Semaphore) (w : ResponseWriter) (r : Request)
    (hw : w.sent = none) :
    (r.Method ≠ "GET" →
      ∃ out, ServeHTTP env sem w r = some out ∧ out.w.status = 405 ∧ out.trace = [] ∧
        ∀ e ∈ out.trace, e.isExtraction = false) ∧
    (r.Method = "GET" →
      (r.queryGet "url" = "" ∨ env.queryUnescape (r.queryGet "url") = none) →
      ∃ out, ServeHTTP env sem w r = some out ∧ out.w.status = 400 ∧ out.trace = [] ∧
        ∀ e ∈ out.trace, e.isExtraction = false) ∧
    (r.Method = "GET" → r.queryGet "url" ≠ "" →
      env.queryUnescape (r.queryGet "url") ≠ none → sem.TryAcquire.1 = false →
      ∃ out, ServeHTTP env sem w r = some out ∧ out.w.status = 503 ∧
        out.trace = [Event.TryAcquire false] ∧
        ∀ e ∈ out.trace, e.isExtraction = false) := by
  refine ⟨?_, ?_, ?_⟩
  · intro hm
    exact ⟨_, ServeHTTP_method env sem w r hm, httpError_status w _ 405 hw, rfl, by simp⟩
  · intro hget hbad
    by_cases hurl : r.queryGet "url" = ""
    · exact ⟨_, ServeHTTP_no_url env sem w r hget hurl, httpError_status w _ 400 hw, rfl,
        by simp⟩
    · have hdec : env.queryUnescape (r.queryGet "url") = none := by
        rcases hbad with h | h
        · exact absurd h hurl
        · exact h
      exact ⟨_, ServeHTTP_bad_encoding env sem w r hget hurl hdec,
        httpError_status w _ 400 hw, rfl, by simp⟩
  · intro hget hurl hdec hbusy
    cases hd : env.queryUnescape (r.queryGet "url") with
    | none => exact absurd hd hdec
    | some decodedURL =>
      exact ⟨_, ServeHTTP_busy env sem w r decodedURL hget hurl hd hbusy,
        busy_status w hw _, rfl, by simp [Event.isExtraction]⟩

/-- C9 on a POST request, a GET request without `url`, and a GET request at
a saturated gate. -/
theorem ServeHTTP_rejections_witness :
    (ServeHTTP demoEnv { cap := 1, len := 1 } ResponseWriter.new
        { Method := "POST", query := [], Header := [], RemoteAddr := "10.0.0.1:5555" }).map
      (fun o => (o.w.status, o.trace)) = some (405, []) ∧
    (ServeHTTP demoEnv { cap := 1, len := 1 } ResponseWriter.new (getRequest [])).map
      (fun o => (o.w.status, o.trace)) = some (400, []) ∧
    (ServeHTTP demoEnv { cap := 1, len := 1 } ResponseWriter.new
        (getRequest [("url", "https://youtube.com/watch")])).map
      (fun o => (o.w.status, o.trace)) = some (503, [Event.TryAcquire false]) := by
  refine ⟨?_, ?_, ?_⟩
  · obtain ⟨out, h, hs, ht, _⟩ := (ServeHTTP_rejections demoEnv { cap := 1, len := 1 }
      ResponseWriter.new
      { Method := "POST", query := [], Header := [], RemoteAddr := "10.0.0.1:5555" } rfl).1
      (by decide)
    rw [h, Option.map_some', hs, ht]
  · obtain ⟨out, h, hs, ht, _⟩ := (ServeHTTP_rejections demoEnv { cap := 1, len := 1 }
      ResponseWriter.new (getRequest []) rfl).2.1 rfl (Or.inl rfl)
    rw [h, Option.map_some', hs, ht]
  · obtain ⟨out, h, hs, ht, _⟩ := (ServeHTTP_rejections demoEnv { cap := 1, len := 1 }
      ResponseWriter.new (getRequest [("url", "https://youtube.com/watch")]) rfl).2.2 rfl
      (by decide) (by decide) rfl
    rw [h, Option.map_some', hs, ht]

theorem streamDirect_of_invalid (env : Env) (w : ResponseWriter) (r : Request)
    (u f : String) (err : ServiceError) (hval : ValidateURL env.urlParse u = Except.error err) :
    streamDirect env w r u f
      = (httpError w (jsonError "Failed to get download URL") 500, [Event.GetDirectURL u f]) := by
  have hg : GetDirectURL env u f = (Except.error err, []) := by
    simp only [GetDirectURL, hval]
  simp only [streamDirect, hg]

/-- C10 as stated fails: a GET request for a locator on an unsupported host
(`ValidateURL` returns `ErrUnsupportedURL`) with the single selector `18` is
answered with status 500, not 400. -/
theorem invalid_locator_status_counterexample :
    ValidateURL demoEnv.urlParse "https://example.com/watch"
      = Except.error ServiceError.ErrUnsupportedURL ∧
    (ServeHTTP demoEnv { cap := 2, len := 0 } ResponseWriter.new
        (getRequest [("url", "https://example.com/watch"), ("format_id", "18")])).map
      (fun o => o.w.status) = some 500 :=
  ⟨rfl, by decide⟩

/-- C10 (amended): a GET request that reaches the gate and is admitted,
whose format selector is single (no `+`) and whose decoded locator the
validator rejects (`ValidateURL` returns an error, that is `ErrInvalidURL`
or `ErrUnsupportedURL`), is answered with status 500 on a response not yet
started; the extraction tool is not run, and the slot is released. -/
theorem ServeHTTP_invalid_locator_single (env : Env) (sem : Semaphore) (w : ResponseWriter)
    (r : Request) (decodedURL : String) (err : ServiceError)
    (hw : w.sent = none) (hget : r.Method = "GET") (hurl : r.queryGet "url" ≠ "")
    (hdec : env.queryUnescape (r.queryGet "url") = some decodedURL)
    (hadm : sem.TryAcquire.1 = true)
    (hsingle : '+' ∉ (effectiveFormat r).data)
    (hval : ValidateURL env.urlParse decodedURL = Except.error err) :
    (err = ServiceError.ErrInvalidURL ∨ err = ServiceError.ErrUnsupportedURL) ∧
    ∃ out, ServeHTTP env sem w r = some out ∧ out.w.status = 500 ∧
      out.trace = [Event.TryAcquire true, Event.GetDirectURL decodedURL (effectiveFormat r),
        Event.Release] ∧
      out.semaphore = sem := by
  constructor
  · unfold ValidateURL at hval
    simp only [] at hval
    split at hval
    · cases hval; exact Or.inl rfl
    · split at hval
      · cases hval; exact Or.inl rfl
      · split at hval
        · cases hval
        · cases hval; exact Or.inr rfl
  · have hc : ¬ (strings.Contains (effectiveFormat r) "+" = true) :=
      fun h => hsingle ((contains_plus_iff _).1 h)
    refine ⟨_, ServeHTTP_admitted env sem w r decodedURL hget hurl hdec hadm, ?_, ?_, rfl⟩
    · simp only [hc, Bool.false_eq_true, if_false,
        streamDirect_of_invalid env w r decodedURL _ err hval]
      exact httpError_status w _ 500 hw
    · simp only [hc, Bool.false_eq_true, if_false,
        streamDirect_of_invalid env w r decodedURL _ err hval]
      rfl

/-- C10 (amended) on a locator whose host is on no supported platform. -/
theorem ServeHTTP_invalid_locator_single_witness :
    ∃ out, ServeHTTP demoEnv { cap := 2, len := 0 } ResponseWriter.new
        (getRequest [("url", "https://example.com/watch"), ("format_id", "18")]) = some out ∧
      out.w.status = 500 ∧
      out.trace = [Event.TryAcquire true,
        Event.GetDirectURL "https://example.com/watch" "18", Event.Release] ∧
      out.semaphore = { cap := 2, len := 0 } :=
  (ServeHTTP_invalid_locator_single demoEnv { cap := 2, len := 0 } ResponseWriter.new
    (getRequest [("url", "https://example.com/watch"), ("format_id", "18")])
    "https://example.com/watch" ServiceError.ErrUnsupportedURL rfl rfl (by decide) rfl rfl
    (by decide) rfl).2

/-! ### Rate-limit denial -/

theorem mapGet_mapSet_ne {β : Type} (m : List (String × β)) (k k2 : String) (v : β)
    (h : k2 ≠ k) : mapGet (mapSet m k2 v) k = mapGet m k := by
  induction m with
  | nil => simp [mapSet, mapGet, h]
  | cons e rest ih =>
    obtain ⟨k', v'⟩ := e
    by_cases h1 : k' = k2
    · subst h1
      simp [mapSet, mapGet, h]
    · by_cases h2 : k' = k
      · subst h2
        simp [mapSet, mapGet, h1]
      · simp [mapSet, mapGet, h1, h2, ih]

theorem header_get_set_self (h : Header) (k v : String) : (h.Set k v).Get k = v := by
  simp [Header.Get, Header.Set, mapGet_mapSet_self]

theorem header_get_set_ne (h : Header) (k k2 v : String) (hne : k2 ≠ k) :
    (h.Set k2 v).Get k = h.Get k := by
  simp [Header.Get, Header.Set, mapGet_mapSet_ne _ _ _ _ hne]

theorem httpError_retry_after (w : ResponseWriter) (msg : String) (code : Nat)
    (hw : w.sent = none) :
    (httpError ((w.setHeader "Content-Type" "application/json").setHeader "Retry-After" "60")
      msg code).sentHeader.Get "Retry-After" = "60" := by
  simp only [httpError, ResponseWriter.setHeader, ResponseWriter.WriteHeader,
    ResponseWriter.Write, ResponseWriter.sentHeader, hw]
  rw [header_get_set_ne _ _ _ _ (by decide), header_get_set_ne _ _ _ _ (by decide),
    header_get_set_self]

/-- C11: on a response not yet started, whenever the limiter of the client
identity denies the request, the middleware answers 429 with the header
`Retry-After: 60`, leaves the state of the wrapped handler untouched and
invokes it zero times (so the gate behind it is neither acquired nor
released); whenever the limiter allows the request, the outcome is that of
the wrapped handler, invoked exactly once. -/
theorem Middleware_deny_or_next {σ : Type} (rl : RateLimiter)
    (next : ResponseWriter → Request → σ → ResponseWriter × σ)
    (seenAt allowAt : Int) (tie : Bool) (w : ResponseWriter) (r : Request) (st : σ) (n : Nat)
    (hw : w.sent = none) :
    (∀ rl1, rl.allow (clientIP r.RemoteAddr (r.Header.Get "X-Forwarded-For")) seenAt allowAt tie
        = some (false, rl1) →
      ∃ w1, rl.Middleware next seenAt allowAt tie w r st = some (w1, st, rl1) ∧
        w1.status = 429 ∧ w1.sentHeader.Get "Retry-After" = "60" ∧
        rl.Middleware (countingHandler next) seenAt allowAt tie w r (n, st)
          = some (w1, (n, st), rl1)) ∧
    (∀ rl1, rl.allow (clientIP r.RemoteAddr (r.Header.Get "X-Forwarded-For")) seenAt allowAt tie
        = some (true, rl1) →
      rl.Middleware next seenAt allowAt tie w r st
        = some ((next w r st).1, (next w r st).2, rl1) ∧
      rl.Middleware (countingHandler next) seenAt allowAt tie w r (n, st)
        = some ((next w r st).1, (n + 1, (next w r st).2), rl1)) := by
  constructor
  · intro rl1 hdeny
    refine ⟨httpError
      ((w.setHeader "Content-Type" "application/json").setHeader "Retry-After" "60")
      "\x7b\"error\": \"Слишком много запросов. Подождите минуту.\"\x7d" 429, ?_, ?_, ?_, ?_⟩
    · simp only [RateLimiter.Middleware, hdeny]
    · exact httpError_status _ _ 429 (by simp [ResponseWriter.setHeader, hw])
    · exact httpError_retry_after w _ 429 hw
    · simp only [RateLimiter.Middleware, hdeny]
  · intro rl1 hallow
    constructor
    · simp only [RateLimiter.Middleware, hallow]
    · simp only [RateLimiter.Middleware, hallow, countingHandler]

/-- C11 on a client whose bucket is empty: the second request within the
same minute at one request per minute. -/
theorem Middleware_deny_or_next_witness :
    (RateLimiter.Middleware
        { visitors := [("10.0.0.1",
            { limiter := { limit := Limit.every minute, burst := 1, credit := 0, last := some 0 },
              lastSeen := 0 })],
          rpm := 1 }
        (countingHandler (fun w _ (st : Nat) => (w.Write "body", st + 7)))
        1 1 true ResponseWriter.new (getRequest []) (0, 5)).map
      (fun o => (o.1.status, o.1.sentHeader.Get "Retry-After", o.2.1)) = some (429, "60", (0, 5)) := by
  obtain ⟨w1, _, hs, hr, hc⟩ := (Middleware_deny_or_next
    { visitors := [("10.0.0.1",
        { limiter := { limit := Limit.every minute, burst := 1, credit := 0, last := some 0 },
          lastSeen := 0 })],
      rpm := 1 }
    (fun w _ (st : Nat) => (w.Write "body", st + 7))
    1 1 true ResponseWriter.new (getRequest []) 5 0 rfl).1
    { visitors := [("10.0.0.1",
        { limiter := { limit := Limit.every minute, burst := 1, credit := 0, last := some 0 },
          lastSeen := 1 })],
      rpm := 1 } (by decide)
  rw [hc, Option.map_some', hs, hr]

/-! ### Temporary-file cleanup -/

theorem countP_isCleanup_ran (ran : List Event) (u f : String)
    (h : ∀ e ∈ ran, e = Event.ytdlp u f) : ran.countP Event.isCleanup = 0 := by
  apply List.countP_eq_zero.2
  intro e he
  rw [h e he]
  simp [Event.isCleanup]

theorem count_cleanup_ran (ran : List Event) (u f p : String)
    (h : ∀ e ∈ ran, e = Event.ytdlp u f) : ran.count (Event.cleanup p) = 0 := by
  apply List.count_eq_zero_of_not_mem
  intro he
  cases h _ he

theorem getLast?_append_singleton (xs : List Event) (a : Event) :
    (xs ++ [a]).getLast? = some a := by
  simp

/-- C12: whenever `DownloadMergedToFile` succeeds, the cleanup callback it
returned (removal of the materialised file) is invoked exactly once by
`streamMerged`, as the last thing it does before returning, whatever the
outcome of open, stat and copy; whenever `DownloadMergedToFile` fails, no
cleanup callback is invoked. -/
theorem streamMerged_cleanup_once (env : Env) (w : ResponseWriter) (r : Request)
    (u f : String) (audio : Bool) :
    (∀ m, (DownloadMergedToFile env u f).1 = Except.ok m →
      m.cleanup = [Event.cleanup m.tempPath] ∧
      (streamMerged env w r u f audio).2.countP Event.isCleanup = 1 ∧
      (streamMerged env w r u f audio).2.count (Event.cleanup m.tempPath) = 1 ∧
      (streamMerged env w r u f audio).2.getLast? = some (Event.cleanup m.tempPath)) ∧
    (∀ err, (DownloadMergedToFile env u f).1 = Except.error err →
      (streamMerged env w r u f audio).2.countP Event.isCleanup = 0) := by
  have hev := downloadMerged_events env u f
  have hclean := downloadMerged_cleanup env u f
  unfold streamMerged
  generalize DownloadMergedToFile env u f = g at hev hclean ⊢
  obtain ⟨res, ran⟩ := g
  have hP := countP_isCleanup_ran ran u f hev
  constructor
  · intro m hm
    simp only [] at hm
    subst hm
    have hc := hclean m rfl
    have hC := count_cleanup_ran ran u f m.tempPath hev
    refine ⟨hc, ?_, ?_, ?_⟩
    · simp only [hc]
      split
      · simp [List.countP_cons, List.countP_append, Event.isCleanup, hP]
      · split <;> simp [List.countP_cons, List.countP_append, Event.isCleanup, hP]
    · simp only [hc]
      split
      · simp [List.count_cons, List.count_append, hC]
      · split <;> simp [List.count_cons, List.count_append, hC]
    · simp only [hc]
      split
      · exact getLast?_append_singleton _ _
      · split
        · rw [show ∀ (xs : List Event) (a b c : Event),
              xs ++ [a] ++ b :: [c] = (xs ++ [a] ++ [b]) ++ [c] from by intros; simp]
          exact getLast?_append_singleton _ _
        · rw [show ∀ (xs : List Event) (a b c : Event),
              xs ++ [a] ++ b :: [c] = (xs ++ [a] ++ [b]) ++ [c] from by intros; simp]
          exact getLast?_append_singleton _ _
  · intro err herr
    simp only [] at herr
    subst herr
    simp [List.countP_cons, Event.isCleanup, hP]

/-- C12 on the example environment, where the merge produces one file. -/
theorem streamMerged_cleanup_once_witness :
    (streamMerged demoEnv ResponseWriter.new (getRequest []) "https://youtube.com/watch"
        "137+140" false).2.count (Event.cleanup "/tmp/viddown/dl_1_x.mp4") = 1 :=
  ((streamMerged_cleanup_once demoEnv ResponseWriter.new (getRequest [])
    "https://youtube.com/watch" "137+140" false).1
    { tempPath := "/tmp/viddown/dl_1_x.mp4", filename := "dl_1_x.mp4",
      cleanup := [Event.cleanup "/tmp/viddown/dl_1_x.mp4"] } rfl).2.2.1

/-! ### Response status and headers of the two streaming paths -/

theorem write_status (w : ResponseWriter) (d : String) :
    (w.Write d).status = w.status ∧ (w.Write d).sentHeader = w.sentHeader ∧
    (w.Write d).header = w.header ∧ (w.Write d).body = w.body ++ [d] := by
  unfold ResponseWriter.Write ResponseWriter.WriteHeader ResponseWriter.status
    ResponseWriter.sentHeader
  cases h : w.sent <;> simp [h]

theorem writeHeader_ok_status (w : ResponseWriter) :
    (w.WriteHeader 200).status = w.status ∧ (w.WriteHeader 200).sentHeader = w.sentHeader := by
  unfold ResponseWriter.WriteHeader ResponseWriter.status ResponseWriter.sentHeader
  cases h : w.sent <;> simp [h]

theorem ioCopy_status (cs : List String) :
    ∀ (w : ResponseWriter) (srcFails : Bool) (accepts : Option Nat),
      (ioCopy w cs srcFails accepts).1.status = w.status ∧
      (ioCopy w cs srcFails accepts).1.sentHeader = w.sentHeader := by
  induction cs with
  | nil => intro w srcFails accepts; simp [ioCopy]
  | cons c cs ih =>
    intro w srcFails accepts
    cases accepts with
    | none =>
      simp only [ioCopy]
      rw [(ih (w.Write c) srcFails none).1, (ih (w.Write c) srcFails none).2]
      exact ⟨(write_status w c).1, (write_status w c).2.1⟩
    | some n =>
      cases n with
      | zero =>
        simp only [ioCopy]
        exact writeHeader_ok_status w
      | succ n =>
        simp only [ioCopy]
        rw [(ih (w.Write c) srcFails (some n)).1, (ih (w.Write c) srcFails (some n)).2]
        exact ⟨(write_status w c).1, (write_status w c).2.1⟩

theorem ioCopy_body (cs : List String) :
    ∀ (w : ResponseWriter) (srcFails : Bool),
      (ioCopy w cs srcFails none).1.body = w.body ++ cs := by
  induction cs with
  | nil => intro w srcFails; simp [ioCopy]
  | cons c cs ih =>
    intro w srcFails
    simp only [ioCopy]
    rw [ih (w.Write c) srcFails, (write_status w c).2.2.2]
    simp

theorem streamDirect_fetched (env : Env) (w : ResponseWriter) (r : Request) (u f : String)
    (info : StreamInfo) (ran : List Event) (resp : Upstream)
    (hres : GetDirectURL env u f = (Except.ok info, ran))
    (hreq : env.newRequest info.URL = true)
    (hfetch : env.clientDo info.URL (upstreamRequestHeader r) = Except.ok resp) :
    (streamDirect env w r u f).1
      = (ioCopy
          (if resp.StatusCode = 206 then
            ((((((if resp.ContentLength > 0 then
                (w.setHeader "Content-Type" info.ContentType).setHeader "Content-Length"
                  (formatInt resp.ContentLength)
              else w.setHeader "Content-Type" info.ContentType).setHeader "Content-Disposition"
                (contentDisposition (sanitizeFilename info.Filename)
                  (env.pathEscape info.Filename))).setHeader "Accept-Ranges" "bytes").setHeader
                "Cache-Control" "no-cache").setHeader "Content-Range"
                (resp.Header.Get "Content-Range"))).WriteHeader 206
          else
            ((((if resp.ContentLength > 0 then
                (w.setHeader "Content-Type" info.ContentType).setHeader "Content-Length"
                  (formatInt resp.ContentLength)
              else w.setHeader "Content-Type" info.ContentType).setHeader "Content-Disposition"
                (contentDisposition (sanitizeFilename info.Filename)
                  (env.pathEscape info.Filename))).setHeader "Accept-Ranges" "bytes").setHeader
                "Cache-Control" "no-cache"))
          resp.body resp.bodyFails env.clientAccepts).1 := by
  unfold upstreamRequestHeader at hfetch
  simp only [streamDirect, hres, hreq, Bool.true_eq_false, if_false, hfetch]

theorem setHeader_sent (w : ResponseWriter) (k v : String) :
    (w.setHeader k v).sent = w.sent := rfl

theorem upstreamRequestHeader_range (r : Request) :
    (upstreamRequestHeader r).Get "Range" = r.Header.Get "Range" := by
  unfold upstreamRequestHeader
  rw [header_get_set_ne _ _ _ _ (by decide)]
  generalize r.Header.Get "Range" = v
  by_cases h : v = ""
  · subst h
    simp [Header.Get, mapGet]
  · simp [h, Header.Get, mapGet]

/-- C13: in `streamDirect`, on a response not yet started, when the
extraction client resolved the format and the upstream fetch (which carries
the `Range` header of the client verbatim) answered 206 Partial Content, the
client receives status 206 and a `Content-Range` header equal to the
upstream's. -/
theorem streamDirect_partial_content (env : Env) (w : ResponseWriter) (r : Request)
    (u f : String) (info : StreamInfo) (ran : List Event) (resp : Upstream)
    (hw : w.sent = none)
    (hres : GetDirectURL env u f = (Except.ok info, ran))
    (hreq : env.newRequest info.URL = true)
    (hfetch : env.clientDo info.URL (upstreamRequestHeader r) = Except.ok resp)
    (h206 : resp.StatusCode = 206) :
    (upstreamRequestHeader r).Get "Range" = r.Header.Get "Range" ∧
    (streamDirect env w r u f).1.status = 206 ∧
    (streamDirect env w r u f).1.sentHeader.Get "Content-Range"
      = resp.Header.Get "Content-Range" := by
  refine ⟨upstreamRequestHeader_range r, ?_, ?_⟩
  · rw [streamDirect_fetched env w r u f info ran resp hres hreq hfetch, (ioCopy_status _ _ _ _).1]
    simp only [h206, if_true]
    split <;>
      simp [ResponseWriter.WriteHeader, ResponseWriter.setHeader, ResponseWriter.status, hw]
  · rw [streamDirect_fetched env w r u f info ran resp hres hreq hfetch, (ioCopy_status _ _ _ _).2]
    simp only [h206, if_true]
    split <;>
      simp [ResponseWriter.WriteHeader, ResponseWriter.setHeader, ResponseWriter.sentHeader, hw,
        header_get_set_self]

/-- C17: in `streamDirect`, on a response not yet started, once the upstream
fetch has returned a response, the client status is 206 when the upstream
status is 206 and 200 for every other upstream status (4xx and 5xx
included); and when the client connection takes every write, the body the
client receives is the upstream body. -/
theorem streamDirect_status_mirror (env : Env) (w : ResponseWriter) (r : Request)
    (u f : String) (info : StreamInfo) (ran : List Event) (resp : Upstream)
    (hw : w.sent = none)
    (hres : GetDirectURL env u f = (Except.ok info, ran))
    (hreq : env.newRequest info.URL = true)
    (hfetch : env.clientDo info.URL (upstreamRequestHeader r) = Except.ok resp) :
    ((streamDirect env w r u f).1.status = 206 ↔ resp.StatusCode = 206) ∧
    (resp.StatusCode ≠ 206 → (streamDirect env w r u f).1.status = 200) ∧
    (env.clientAccepts = none → (streamDirect env w r u f).1.body = w.body ++ resp.body) := by
  have hstatus : (streamDirect env w r u f).1.status
      = if resp.StatusCode = 206 then 206 else 200 := by
    rw [streamDirect_fetched env w r u f info ran resp hres hreq hfetch,
      (ioCopy_status _ _ _ _).1]
    by_cases h206 : resp.StatusCode = 206
    · simp only [h206, if_true]
      split <;>
        simp [ResponseWriter.WriteHeader, ResponseWriter.setHeader, ResponseWriter.status, hw]
    · simp only [h206, if_false]
      split <;> simp [ResponseWriter.setHeader, ResponseWriter.status, hw]
  refine ⟨?_, ?_, ?_⟩
  · rw [hstatus]
    by_cases h206 : resp.StatusCode = 206 <;> simp [h206]
  · intro h206
    rw [hstatus, if_neg h206]
  · intro hacc
    rw [streamDirect_fetched env w r u f info ran resp hres hreq hfetch, hacc, ioCopy_body]
    by_cases h206 : resp.StatusCode = 206
    · simp only [h206, if_true]
      split <;> simp [ResponseWriter.WriteHeader, ResponseWriter.setHeader, hw]
    · simp only [h206, if_false]
      split <;> simp [ResponseWriter.setHeader]

/-- C13 on a request for `bytes=2-` answered by the upstream with 206 and
`Content-Range: bytes 2-3/4`. -/
theorem streamDirect_partial_content_witness :
    (streamDirect
        (demoEnvWith { StatusCode := 206, Header := [("Content-Range", "bytes 2-3/4")],
                       ContentLength := 2, body := ["cd"], bodyFails := false })
        ResponseWriter.new (rangedRequest [] "bytes=2-") "https://youtube.com/watch" "18").1.status
      = 206 ∧
    (streamDirect
        (demoEnvWith { StatusCode := 206, Header := [("Content-Range", "bytes 2-3/4")],
                       ContentLength := 2, body := ["cd"], bodyFails := false })
        ResponseWriter.new (rangedRequest [] "bytes=2-") "https://youtube.com/watch"
        "18").1.sentHeader.Get "Content-Range"
      = "bytes 2-3/4" :=
  (streamDirect_partial_content
    (demoEnvWith { StatusCode := 206, Header := [("Content-Range", "bytes 2-3/4")],
                   ContentLength := 2, body := ["cd"], bodyFails := false })
    ResponseWriter.new (rangedRequest [] "bytes=2-") "https://youtube.com/watch" "18"
    { URL := "https://cdn.example/v", Filename := "clip.mp4", ContentType := "video/mp4",
      Size := 0 }
    [Event.ytdlp "https://youtube.com/watch" "18"]
    { StatusCode := 206, Header := [("Content-Range", "bytes 2-3/4")],
      ContentLength := 2, body := ["cd"], bodyFails := false }
    rfl rfl rfl rfl rfl).2

/-- C17 on an upstream that answers 404: the client receives 200 and the
upstream's error body. -/
theorem streamDirect_status_mirror_witness :
    (streamDirect
        (demoEnvWith { StatusCode := 404, Header := [], ContentLength := 9,
                       body := ["Not Found"], bodyFails := false })
        ResponseWriter.new (getRequest []) "https://youtube.com/watch" "18").1.status = 200 ∧
    (streamDirect
        (demoEnvWith { StatusCode := 404, Header := [], ContentLength := 9,
                       body := ["Not Found"], bodyFails := false })
        ResponseWriter.new (getRequest []) "https://youtube.com/watch" "18").1.body
      = ["Not Found"] :=
  ⟨(streamDirect_status_mirror
      (demoEnvWith { StatusCode := 404, Header := [], ContentLength := 9,
                     body := ["Not Found"], bodyFails := false })
      ResponseWriter.new (getRequest []) "https://youtube.com/watch" "18"
      { URL := "https://cdn.example/v", Filename := "clip.mp4", ContentType := "video/mp4",
        Size := 0 }
      [Event.ytdlp "https://youtube.com/watch" "18"]
      { StatusCode := 404, Header := [], ContentLength := 9,
        body := ["Not Found"], bodyFails := false }
      rfl rfl rfl rfl).2.1 (by decide),
   (streamDirect_status_mirror
      (demoEnvWith { StatusCode := 404, Header := [], ContentLength := 9,
                     body := ["Not Found"], bodyFails := false })
      ResponseWriter.new (getRequest []) "https://youtube.com/watch" "18"
      { URL := "https://cdn.example/v", Filename := "clip.mp4", ContentType := "video/mp4",
        Size := 0 }
      [Event.ytdlp "https://youtube.com/watch" "18"]
      { StatusCode := 404, Header := [], ContentLength := 9,
        body := ["Not Found"], bodyFails := false }
      rfl rfl rfl rfl).2.2 rfl⟩

theorem streamMerged_streamed (env : Env) (w : ResponseWriter) (r : Request) (u f : String)
    (audio : Bool) (m : Merged) (ran : List Event) (size : Int)
    (hres : DownloadMergedToFile env u f = (Except.ok m, ran))
    (hopen : env.osOpen m.tempPath = true)
    (hstat : env.fileStat m.tempPath = some size) :
    (streamMerged env w r u f audio).1
      = (ioCopy
          (((((w.setHeader "Content-Type" (if audio = true then "audio/mp4" else "video/mp4")).setHeader
              "Content-Length" (formatInt size)).setHeader "Content-Disposition"
              (contentDisposition (sanitizeFilename m.filename)
                (env.pathEscape m.filename))).setHeader "Accept-Ranges" "bytes").setHeader
              "Cache-Control" "no-cache")
          (env.fileBody m.tempPath) false env.clientAccepts).1 := by
  simp only [streamMerged, hres, hopen, Bool.true_eq_false, if_false, hstat]

/-- C14: in `streamMerged`, on a response not yet started and carrying no
`Content-Range` header, whenever materialisation, open and stat succeed, the
`Content-Length` header the client receives is the decimal rendering of the
stat size, the status is 200 (never 206) and there is no `Content-Range`
header, whatever the request, its `Range` header included. -/
theorem streamMerged_content_length (env : Env) (w : ResponseWriter) (r : Request)
    (u f : String) (audio : Bool) (m : Merged) (ran : List Event) (size : Int)
    (hw : w.sent = none) (hcr : mapGet w.header "Content-Range" = none)
    (hres : DownloadMergedToFile env u f = (Except.ok m, ran))
    (hopen : env.osOpen m.tempPath = true)
    (hstat : env.fileStat m.tempPath = some size) :
    (streamMerged env w r u f audio).1.sentHeader.Get "Content-Length" = formatInt size ∧
    formatInt size = toString size ∧
    (streamMerged env w r u f audio).1.status = 200 ∧
    mapGet (streamMerged env w r u f audio).1.sentHeader "Content-Range" = none := by
  rw [streamMerged_streamed env w r u f audio m ran size hres hopen hstat,
    (ioCopy_status _ _ _ _).1, (ioCopy_status _ _ _ _).2]
  refine ⟨?_, rfl, ?_, ?_⟩
  · simp only [ResponseWriter.setHeader, ResponseWriter.sentHeader, hw]
    rw [header_get_set_ne _ _ _ _ (by decide), header_get_set_ne _ _ _ _ (by decide),
      header_get_set_ne _ _ _ _ (by decide), header_get_set_self]
  · simp [ResponseWriter.setHeader, ResponseWriter.status, hw]
  · simp only [ResponseWriter.setHeader, ResponseWriter.sentHeader, hw, Header.Set]
    rw [mapGet_mapSet_ne _ _ _ _ (by decide), mapGet_mapSet_ne _ _ _ _ (by decide),
      mapGet_mapSet_ne _ _ _ _ (by decide), mapGet_mapSet_ne _ _ _ _ (by decide),
      mapGet_mapSet_ne _ _ _ _ (by decide), hcr]

/-- C14 on a request that carries `Range: bytes=2-`: the merged file of
size 4 is served whole. -/
theorem streamMerged_content_length_witness :
    (streamMerged demoEnv ResponseWriter.new (rangedRequest [] "bytes=2-")
        "https://youtube.com/watch" "137+140" false).1.sentHeader.Get "Content-Length" = "4" ∧
    (streamMerged demoEnv ResponseWriter.new (rangedRequest [] "bytes=2-")
        "https://youtube.com/watch" "137+140" false).1.status = 200 := by
  have h := streamMerged_content_length demoEnv ResponseWriter.new
    (rangedRequest [] "bytes=2-") "https://youtube.com/watch" "137+140" false
    { tempPath := "/tmp/viddown/dl_1_x.mp4", filename := "dl_1_x.mp4",
      cleanup := [Event.cleanup "/tmp/viddown/dl_1_x.mp4"] }
    [Event.ytdlp "https://youtube.com/watch" "137+140"] 4 rfl rfl rfl rfl rfl
  exact ⟨h.1.trans (by decide), h.2.2.1⟩

/-! ### Format ranking -/

theorem bestAudioLoop_some (formats : List Format) :
    ∀ b : Format, b.Typ = "audio" →
      ∃ a, bestAudioLoop formats (some b) = some a ∧ a.Typ = "audio" ∧
        (a = b ∨ a ∈ formats) ∧
        extractBitrate b.Quality ≤ extractBitrate a.Quality ∧
        ∀ f ∈ formats, f.Typ = "audio" →
          extractBitrate f.Quality ≤ extractBitrate a.Quality := by
  induction formats with
  | nil =>
    intro b hb
    exact ⟨b, rfl, hb, Or.inl rfl, le_refl _, by simp⟩
  | cons f rest ih =>
    intro b hb
    by_cases hf : f.Typ = "audio"
    · by_cases hgt : extractBitrate f.Quality > extractBitrate b.Quality
      · obtain ⟨a, ha, hta, hmem, hle, hall⟩ := ih f hf
        refine ⟨a, by simp only [bestAudioLoop, hf, if_true, hgt, ha], hta, ?_, by omega, ?_⟩
        · rcases hmem with h | h
          · exact Or.inr (h ▸ List.mem_cons_self _ _)
          · exact Or.inr (List.mem_cons_of_mem _ h)
        · intro g hg hga
          rcases List.mem_cons.1 hg with h | h
          · rw [h]; exact hle
          · exact hall g h hga
      · obtain ⟨a, ha, hta, hmem, hle, hall⟩ := ih b hb
        refine ⟨a, by simp only [bestAudioLoop, hf, if_true, hgt, if_false, ha], hta, ?_, hle, ?_⟩
        · rcases hmem with h | h
          · exact Or.inl h
          · exact Or.inr (List.mem_cons_of_mem _ h)
        · intro g hg hga
          rcases List.mem_cons.1 hg with h | h
          · rw [h]; omega
          · exact hall g h hga
    · obtain ⟨a, ha, hta, hmem, hle, hall⟩ := ih b hb
      refine ⟨a, by simp only [bestAudioLoop, hf, if_false, ha], hta, ?_, hle, ?_⟩
      · rcases hmem with h | h
        · exact Or.inl h
        · exact Or.inr (List.mem_cons_of_mem _ h)
      · intro g hg hga
        rcases List.mem_cons.1 hg with h | h
        · rw [h] at hga; exact absurd hga hf
        · exact hall g h hga

theorem bestAudioLoop_none_of_no_audio (formats : List Format)
    (h : ∀ f ∈ formats, f.Typ ≠ "audio") : bestAudioLoop formats none = none := by
  induction formats with
  | nil => rfl
  | cons f rest ih =>
    have hf : f.Typ ≠ "audio" := h f (List.mem_cons_self _ _)
    simp only [bestAudioLoop, hf, if_false]
    exact ih (fun g hg => h g (List.mem_cons_of_mem _ hg))

theorem bestAudioLoop_of_audio (formats : List Format)
    (h : ∃ f ∈ formats, f.Typ = "audio") :
    ∃ a ∈ formats, bestAudioLoop formats none = some a ∧ a.Typ = "audio" ∧
      ∀ f ∈ formats, f.Typ = "audio" →
        extractBitrate f.Quality ≤ extractBitrate a.Quality := by
  induction formats with
  | nil =>
    obtain ⟨f, hf, _⟩ := h
    cases hf
  | cons f rest ih =>
    by_cases hf : f.Typ = "audio"
    · obtain ⟨a, ha, hta, hmem, hle, hall⟩ := bestAudioLoop_some rest f hf
      refine ⟨a, ?_, by simp only [bestAudioLoop, hf, if_true, ha], hta, ?_⟩
      · rcases hmem with h1 | h1
        · exact h1 ▸ List.mem_cons_self _ _
        · exact List.mem_cons_of_mem _ h1
      · intro g hg hga
        rcases List.mem_cons.1 hg with h1 | h1
        · rw [h1]; exact hle
        · exact hall g h1 hga
    · have hrest : ∃ g ∈ rest, g.Typ = "audio" := by
        obtain ⟨g, hg, hga⟩ := h
        rcases List.mem_cons.1 hg with h1 | h1
        · rw [h1] at hga; exact absurd hga hf
        · exact ⟨g, h1, hga⟩
      obtain ⟨a, hmem, ha, hta, hall⟩ := ih hrest
      refine ⟨a, List.mem_cons_of_mem _ hmem, by simp only [bestAudioLoop, hf, if_false, ha],
        hta, ?_⟩
      intro g hg hga
      rcases List.mem_cons.1 hg with h1 | h1
      · rw [h1] at hga; exact absurd hga hf
      · exact hall g h1 hga

theorem ladderLoop_eq_specRung (r : Int) (bestAudio : Option Format) (formats : List Format) :
    ladderLoop r bestAudio formats = specRung r bestAudio formats := by
  induction formats with
  | nil => rfl
  | cons f rest ih =>
    by_cases hm : f.Typ = "video" ∧ strings.HasPrefix f.Quality (strconv.Itoa r) = true
    · have hmr : matchesRung r f = true := by simp [matchesRung, hm.1, hm.2]
      simp only [ladderLoop, hm, and_self, if_true, specRung, List.find?_cons, hmr]
      cases bestAudio <;> rfl
    · have hmr : matchesRung r f = false := by
        simp only [matchesRung, Bool.and_eq_false_iff, decide_eq_false_iff_not]
        by_cases h1 : f.Typ = "video"
        · right
          have := fun h2 => hm ⟨h1, h2⟩
          simpa using this
        · exact Or.inl h1
      have hstep : ladderLoop r bestAudio (f :: rest) = ladderLoop r bestAudio rest := by
        simp only [ladderLoop, hm, if_false]
      rw [hstep, ih]
      simp only [specRung, List.find?_cons, hmr]

theorem GetBestFormats_unfold (formats : List Format) :
    GetBestFormats formats
      = (match bestAudioLoop formats none with
          | some a => [audioElement a]
          | none => []) ++
        specRung 360 (bestAudioLoop formats none) formats ++
        specRung 480 (bestAudioLoop formats none) formats ++
        specRung 720 (bestAudioLoop formats none) formats ++
        specRung 1080 (bestAudioLoop formats none) formats := by
  simp only [GetBestFormats, resolutions, List.foldl, ladderLoop_eq_specRung]
  cases bestAudioLoop formats none <;> rfl

theorem specRung_cases (r : Int) (bestAudio : Option Format) (formats : List Format) :
    specRung r bestAudio formats = [] ∨
    (∃ v ∈ formats, matchesRung r v = true ∧ bestAudio = none ∧
      specRung r bestAudio formats = [videoOnlyElement r v]) ∨
    (∃ v ∈ formats, ∃ a, matchesRung r v = true ∧ bestAudio = some a ∧
      specRung r bestAudio formats = [compositeElement r v a, videoOnlyElement r v]) := by
  unfold specRung
  cases hfind : formats.find? (matchesRung r) with
  | none => exact Or.inl rfl
  | some v =>
    have hv := List.find?_some hfind
    have hmem := List.mem_of_find?_eq_some hfind
    cases bestAudio with
    | none => exact Or.inr (Or.inl ⟨v, hmem, hv, rfl, rfl⟩)
    | some a => exact Or.inr (Or.inr ⟨v, hmem, a, hv, rfl, rfl⟩)

theorem specRung_length (r : Int) (bestAudio : Option Format) (formats : List Format) :
    (specRung r bestAudio formats).length ≤ 2 := by
  rcases specRung_cases r bestAudio formats with h | ⟨v, _, _, _, h⟩ | ⟨v, _, a, _, _, h⟩ <;>
    simp [h]

theorem specRung_composite_id (r : Int) (bestAudio : Option Format) (formats : List Format) :
    ∀ e ∈ specRung r bestAudio formats, e.Typ = "video" → '+' ∈ e.ID.data := by
  intro e he hty
  rcases specRung_cases r bestAudio formats with h | ⟨v, _, _, _, h⟩ | ⟨v, _, a, _, _, h⟩
  · rw [h] at he; cases he
  · rw [h] at he
    rw [List.mem_singleton.1 he] at hty
    simp [videoOnlyElement] at hty
  · rw [h] at he
    rcases List.mem_cons.1 he with h1 | h1
    · rw [h1]
      simp [compositeElement, String.data_append]
    · rw [List.mem_singleton.1 h1] at hty
      simp [videoOnlyElement] at hty

theorem specRung_no_audio (r : Int) (formats : List Format) :
    ∀ e ∈ specRung r none formats, e.Typ = "video_only" := by
  intro e he
  rcases specRung_cases r none formats with h | ⟨v, _, _, _, h⟩ | ⟨v, _, a, _, hba, _⟩
  · rw [h] at he; cases he
  · rw [h] at he
    rw [List.mem_singleton.1 he]
    rfl
  · cases hba

theorem wrapInt64_of_fits (n : Int) (hlo : -9223372036854775808 ≤ n)
    (hhi : n ≤ 9223372036854775807) : wrapInt64 n = n := by
  unfold wrapInt64
  rw [Int.emod_eq_of_lt (by omega) (by omega)]
  omega

/-- C15: when the list has an entry of type `audio`, the best audio that
`GetBestFormats` chooses is an audio entry of the list whose bitrate
(`extractBitrate` of its quality) is at least that of every audio entry, and
the first element of the result is the audio element with that entry's ID;
when the list has no audio entry, there is no best audio and every element
of the result is a video-only element (no audio element, no composite). -/
theorem GetBestFormats_best_audio (formats : List Format) :
    ((∃ f ∈ formats, f.Typ = "audio") →
      ∃ a ∈ formats, bestAudioLoop formats none = some a ∧ a.Typ = "audio" ∧
        (∀ f ∈ formats, f.Typ = "audio" →
          extractBitrate f.Quality ≤ extractBitrate a.Quality) ∧
        (GetBestFormats formats).head?
          = some { ID := a.ID, Typ := "audio", Quality := "Лучшее аудио (" ++ a.Quality ++ ")",
                   Ext := "m4a", Size := a.Size }) ∧
    ((∀ f ∈ formats, f.Typ ≠ "audio") →
      bestAudioLoop formats none = none ∧
      ∀ e ∈ GetBestFormats formats, e.Typ = "video_only") := by
  constructor
  · intro h
    obtain ⟨a, hmem, ha, hta, hall⟩ := bestAudioLoop_of_audio formats h
    refine ⟨a, hmem, ha, hta, hall, ?_⟩
    rw [GetBestFormats_unfold, ha]
    rfl
  · intro h
    have hnone := bestAudioLoop_none_of_no_audio formats h
    refine ⟨hnone, ?_⟩
    rw [GetBestFormats_unfold, hnone]
    intro e he
    simp only [List.nil_append, List.mem_append] at he
    rcases he with ((he | he) | he) | he <;> exact specRung_no_audio _ formats e he

/-- C15 on the example list: the 128 kbps track wins over the 48 kbps
one. -/
theorem GetBestFormats_best_audio_witness :
    (GetBestFormats demoFormats).head?
      = some { ID := "140", Typ := "audio", Quality := "Лучшее аудио (128kbps)",
               Ext := "m4a", Size := 300 } := by
  obtain ⟨a, _, ha, _, _, hhead⟩ := (GetBestFormats_best_audio demoFormats).1
    ⟨{ ID := "139", Typ := "audio", Quality := "48kbps", Ext := "m4a", Size := 100 },
      by decide, rfl⟩
  have hbest : bestAudioLoop demoFormats none
      = some { ID := "140", Typ := "audio", Quality := "128kbps", Ext := "m4a", Size := 300 } := by
    decide
  rw [hbest] at ha
  cases ha
  rw [hhead]
  decide

/-- C16: the result of `GetBestFormats` is the best-audio element, when
there is a best audio, followed by what the ladder resolutions 360, 480,
720, 1080 contribute in that order: nothing for a resolution no video entry
matches, and otherwise, for the first matching video entry `v` in input
order, the composite element with ID `v.ID + "+" + a.ID` and size
`v.Size + a.Size` (an `int64` sum) when a best audio `a` exists, immediately
followed by the video-only element with ID `v.ID`. Hence the result has at
most 9 elements and the ID of every composite element contains `+`. -/
theorem GetBestFormats_ladder (formats : List Format) :
    GetBestFormats formats
      = (match bestAudioLoop formats none with
          | some a => [audioElement a]
          | none => []) ++
        specRung 360 (bestAudioLoop formats none) formats ++
        specRung 480 (bestAudioLoop formats none) formats ++
        specRung 720 (bestAudioLoop formats none) formats ++
        specRung 1080 (bestAudioLoop formats none) formats ∧
    (GetBestFormats formats).length ≤ 9 ∧
    (∀ e ∈ GetBestFormats formats, e.Typ = "video" → '+' ∈ e.ID.data) ∧
    (∀ (r : Int) (v a : Format),
      (compositeElement r v a).ID = v.ID ++ "+" ++ a.ID ∧
      (compositeElement r v a).Size = wrapInt64 (v.Size + a.Size) ∧
      (-9223372036854775808 ≤ v.Size + a.Size → v.Size + a.Size ≤ 9223372036854775807 →
        (compositeElement r v a).Size = v.Size + a.Size) ∧
      (videoOnlyElement r v).ID = v.ID) := by
  refine ⟨GetBestFormats_unfold formats, ?_, ?_, ?_⟩
  · rw [GetBestFormats_unfold]
    have h1 := specRung_length 360 (bestAudioLoop formats none) formats
    have h2 := specRung_length 480 (bestAudioLoop formats none) formats
    have h3 := specRung_length 720 (bestAudioLoop formats none) formats
    have h4 := specRung_length 1080 (bestAudioLoop formats none) formats
    have h0 : (match bestAudioLoop formats none with
        | some a => [audioElement a]
        | none => ([] : List Format)).length ≤ 1 := by
      cases bestAudioLoop formats none <;> simp
    simp only [List.length_append]
    omega
  · rw [GetBestFormats_unfold]
    intro e he hty
    simp only [List.mem_append] at he
    rcases he with (((he | he) | he) | he) | he
    · cases hba : bestAudioLoop formats none with
      | none => rw [hba] at he; cases he
      | some a =>
        rw [hba] at he
        rw [List.mem_singleton.1 he] at hty
        simp [audioElement] at hty
    · exact specRung_composite_id _ _ formats e he hty
    · exact specRung_composite_id _ _ formats e he hty
    · exact specRung_composite_id _ _ formats e he hty
    · exact specRung_composite_id _ _ formats e he hty
  · intro r v a
    refine ⟨rfl, rfl, ?_, rfl⟩
    intro hlo hhi
    exact wrapInt64_of_fits _ hlo hhi

/-- C16 on the example list: rungs 360 and 720 are filled, each with the
first matching video, and rungs 480 and 1080 are empty. -/
theorem GetBestFormats_ladder_witness :
    (GetBestFormats demoFormats).map (fun f => (f.ID, f.Size))
      = [("140", 300), ("134+140", 1300), ("134", 1000), ("136+140", 4300), ("136", 4000)] := by
  rw [(GetBestFormats_ladder demoFormats).1]
  decide

end VidDown
